import Mathlib

/-!
Shallow embedding of the VeloxBook order-book core
(`src/order_book.{hpp,cpp}`, `src/matching_engine.{hpp,cpp}`,
`src/order.hpp`, `src/utils.hpp`, plus the tif post-step of
`src/OrderBookController.cpp`).

Modelling conventions:
* `Price` and `Quantity` are C++ `uint64_t`; we model them as `Nat` and apply
  an explicit wrap (`add64` / `sub64`) exactly where the C++ performs
  unsigned arithmetic that could wrap.
* `OrderId`, `UserId` and symbols are C++ `std::string`; modelled as `String`.
* The C++ keeps `shared_ptr<Order>` aliased between `orders_by_id_` and the
  price levels.  We model `orders_by_id_` as the single store of `Order`
  records (an association list, mirroring `std::map<OrderId, shared_ptr<Order>>`)
  and a price level keeps the list of order ids, in deque (FIFO) order.
* The two callbacks (`trade_callback_`, `order_update_callback_`) are modelled
  as an emitted event list: each would-be invocation appends one event.
* `std::map<Price, OrderBookLevel, greater>` / `std::map<Price, OrderBookLevel>`
  are modelled as association lists sorted price-descending (bids) and
  price-ascending (asks); `begin()` is the list head.
* The `while` matching loop of `OrderBook::match_orders` does not terminate on
  a level whose resting orders all have zero remaining quantity (reachable via
  `modify_order`'s in-place branch); matching therefore runs on fuel and
  returns `none` exactly when the C++ loop would not terminate.  Timestamps
  (used nowhere for control flow) are omitted.
-/

namespace VeloxBook

/-- 2^64, the modulus of C++ `uint64_t` arithmetic. -/
def U64 : Nat := 18446744073709551616

/-- `uint64_t` addition (wraps at 2^64). -/
def add64 (a b : Nat) : Nat := (a + b) % U64

/-- `uint64_t` subtraction (wraps at 2^64); faithful for arguments `< U64`. -/
def sub64 (a b : Nat) : Nat := if b ≤ a then a - b else a + U64 - b

/-- `constexpr Quantity MAX_ORDER_QUANTITY = 1'000'000;` (utils.hpp). -/
def MAX_ORDER_QUANTITY : Nat := 1000000

/-- `constexpr Price MAX_ORDER_PRICE = 1'000'000;` (utils.hpp). -/
def MAX_ORDER_PRICE : Nat := 1000000

/-- `enum class OrderType` (order.hpp). -/
inductive OrderType where
  | market
  | limit
  | stop
  | stopLimit
deriving DecidableEq, Repr

/-- `enum class OrderSide` (order.hpp). -/
inductive OrderSide where
  | buy
  | sell
deriving DecidableEq, Repr

/-- `enum class OrderStatus` (order.hpp); `partFilled` models `PARTIAL`. -/
inductive OrderStatus where
  | new
  | partFilled
  | filled
  | cancelled
  | rejected
deriving DecidableEq, Repr

/-- `struct Order` (order.hpp).  The `timestamp` field (a high-resolution
clock instant never used for control flow) is omitted. -/
structure Order where
  id : String
  symbol : String
  side : OrderSide
  type : OrderType
  price : Nat
  stop_price : Nat
  quantity : Nat
  filled_quantity : Nat := 0
  status : OrderStatus := .new
  user_id : String
  expiry : Int := 0
  tif : String := "GTC"
deriving DecidableEq, Repr

/-- `struct Trade` (order.hpp); the timestamp field is omitted. -/
structure Trade where
  buy_order_id : String
  sell_order_id : String
  symbol : String
  price : Nat
  quantity : Nat
deriving DecidableEq, Repr

/-- One callback invocation of the book: `trade_callback_(t)` or
`order_update_callback_(o)` with the argument value at invocation time. -/
inductive BEvent where
  | trade (t : Trade)
  | orderUpdate (o : Order)
deriving DecidableEq, Repr

/-- `struct OrderBookLevel` (order_book.hpp): price, FIFO deque of resting
orders (stored as ids into `orders_by_id_`), running total quantity. -/
structure Level where
  price : Nat
  orders : List String
  total_quantity : Nat
deriving DecidableEq, Repr

/-- Lookup in an association list keyed by `String` (first match), mirroring
`std::map::find`. -/
def lookupA {β : Type} (l : List (String × β)) (k : String) : Option β :=
  match l with
  | [] => none
  | (k', v) :: rest => if k' = k then some v else lookupA rest k

/-- `m[k] = v` on an association list: replace the first binding of `k`, or
append a new one (key-insertion order is irrelevant to every claim). -/
def insertA {β : Type} (l : List (String × β)) (k : String) (v : β) :
    List (String × β) :=
  match l with
  | [] => [(k, v)]
  | (k', v') :: rest =>
    if k' = k then (k', v) :: rest else (k', v') :: insertA rest k v

/-- `m.erase(k)` on an association list (first binding). -/
def eraseA {β : Type} (l : List (String × β)) (k : String) :
    List (String × β) :=
  match l with
  | [] => []
  | (k', v') :: rest =>
    if k' = k then rest else (k', v') :: eraseA rest k

/-- A side of the book: association list from price to level, kept in the
side's iteration order (bids descending, asks ascending). -/
abbrev Side := List (Nat × Level)

/-- `map.find(p)` on a side. -/
def findLevel (s : Side) (p : Nat) : Option Level :=
  match s with
  | [] => none
  | (p', lvl) :: rest => if p' = p then some lvl else findLevel rest p

/-- `map.erase(p)` on a side. -/
def eraseLevel (s : Side) (p : Nat) : Side :=
  match s with
  | [] => []
  | (p', lvl) :: rest =>
    if p' = p then rest else (p', lvl) :: eraseLevel rest p

/-- `buy_orders_[p]` / `sell_orders_[p]` combined with an update `f`:
if the key is present apply `f` to its level, otherwise insert
`f` applied to the value-initialized level `⟨0, [], 0⟩` at the position
dictated by `before` (the side's strict ordering on keys). -/
def upsertLevel (before : Nat → Nat → Bool) (p : Nat) (f : Level → Level)
    (s : Side) : Side :=
  match s with
  | [] => [(p, f ⟨0, [], 0⟩)]
  | (p', lvl) :: rest =>
    if p' = p then (p', f lvl) :: rest
    else if before p p' then (p, f ⟨0, [], 0⟩) :: (p', lvl) :: rest
    else (p', lvl) :: upsertLevel before p f rest

/-- Bid-side key order: higher prices first (`std::greater`). -/
def bidBefore (a b : Nat) : Bool := b < a

/-- Ask-side key order: lower prices first. -/
def askBefore (a b : Nat) : Bool := a < b

/-- `class OrderBook` state (order_book.hpp).  Locks are omitted (all claim
operations are modelled as atomic); `symbol_` retained. -/
structure OrderBook where
  symbol_ : String
  buy_orders_ : Side := []
  sell_orders_ : Side := []
  orders_by_id_ : List (String × Order) := []
  total_orders_ : Nat := 0
  total_trades_ : Nat := 0
  total_volume_ : Nat := 0
  trade_history_ : List Trade := []
deriving DecidableEq, Repr

/-- A fresh book, as constructed by `OrderBook::OrderBook(symbol)`. -/
def OrderBook.empty (sym : String) : OrderBook := { symbol_ := sym }

/-- `Price OrderBook::get_best_bid()`: first key of `buy_orders_`, else 0. -/
def OrderBook.get_best_bid (b : OrderBook) : Nat :=
  match b.buy_orders_ with
  | [] => 0
  | (p, _) :: _ => p

/-- `Price OrderBook::get_best_ask()`: first key of `sell_orders_`, else 0. -/
def OrderBook.get_best_ask (b : OrderBook) : Nat :=
  match b.sell_orders_ with
  | [] => 0
  | (p, _) :: _ => p

/-- `OrderBook::get_order`. -/
def OrderBook.get_order (b : OrderBook) (i : String) : Option Order :=
  lookupA b.orders_by_id_ i

/-- `OrderBook::get_order_count`. -/
def OrderBook.get_order_count (b : OrderBook) : Nat :=
  b.orders_by_id_.length

/-- State threaded through `OrderBook::match_orders`: the incoming (taker)
order, the id store, accumulated trades/events and the two counters the
loop increments. -/
structure MState where
  taker : Order
  store : List (String × Order)
  trades : List Trade
  events : List BEvent
  total_trades_ : Nat
  total_volume_ : Nat
deriving Repr

/-- The inner `for` loop of `OrderBook::match_orders` over one level's FIFO
deque.  Returns the ids kept in the deque (processed survivors in place,
plus any unprocessed tail on early `break`), the level's new
`total_quantity`, and the updated match state.

A `none` store lookup cannot occur when every level id has a store entry
(the C++ dereferences a live `shared_ptr` there); the order is then kept
and skipped. -/
def levelPass (isBuy : Bool) (sym : String) (price : Nat) :
    List String → Nat → MState → (List String × Nat × MState)
  | [], lvlTotal, st => ([], lvlTotal, st)
  | i :: rest, lvlTotal, st =>
    match lookupA st.store i with
    | none =>
      let r := levelPass isBuy sym price rest lvlTotal st
      (i :: r.1, r.2.1, r.2.2)
    | some m =>
      let tqty := min (sub64 st.taker.quantity st.taker.filled_quantity)
                      (sub64 m.quantity m.filled_quantity)
      if tqty = 0 then
        let r := levelPass isBuy sym price rest lvlTotal st
        (i :: r.1, r.2.1, r.2.2)
      else
        let tr : Trade :=
          if isBuy then ⟨st.taker.id, i, sym, price, tqty⟩
          else ⟨i, st.taker.id, sym, price, tqty⟩
        let taker' := { st.taker with
          filled_quantity := add64 st.taker.filled_quantity tqty }
        let mFilled := add64 m.filled_quantity tqty
        let lvlTotal' := sub64 lvlTotal tqty
        if mFilled = m.quantity then
          let m' := { m with filled_quantity := mFilled, status := .filled }
          let st' : MState :=
            { taker := taker'
              store := insertA st.store i m'
              trades := st.trades ++ [tr]
              events := st.events ++ [.trade tr, .orderUpdate m']
              total_trades_ := add64 st.total_trades_ 1
              total_volume_ := add64 st.total_volume_ tqty }
          if taker'.filled_quantity = taker'.quantity then
            (rest, lvlTotal', st')
          else
            let r := levelPass isBuy sym price rest lvlTotal' st'
            (r.1, r.2.1, r.2.2)
        else
          let m' := { m with filled_quantity := mFilled, status := .partFilled }
          let st' : MState :=
            { taker := taker'
              store := insertA st.store i m'
              trades := st.trades ++ [tr]
              events := st.events ++ [.trade tr, .orderUpdate m']
              total_trades_ := add64 st.total_trades_ 1
              total_volume_ := add64 st.total_volume_ tqty }
          if taker'.filled_quantity = taker'.quantity then
            (i :: rest, lvlTotal', st')
          else
            let r := levelPass isBuy sym price rest lvlTotal' st'
            (i :: r.1, r.2.1, r.2.2)

/-- `while (order->filled_quantity < order->quantity && !side.empty())` —
the price/cross check of `match_orders` on the best opposing level. -/
def crosses (isBuy : Bool) (taker : Order) (price : Nat) : Bool :=
  if taker.type = .market then true
  else if isBuy then price ≤ taker.price
  else taker.price ≤ price

/-- Rebuild the opposing side after one level pass:
`if (level.orders.empty()) side.erase(price);`. -/
def rebuildOpp (price : Nat) (lvl : Level) (kept : List String)
    (total : Nat) (rest : Side) : Side :=
  if kept = [] then rest
  else (price, { lvl with orders := kept, total_quantity := total }) :: rest

/-- The outer `while` loop of `OrderBook::match_orders`, on fuel.
`none` means the C++ loop does not terminate (possible only when a level
consists entirely of zero-remaining orders that still cross). -/
def matchLoop (isBuy : Bool) (sym : String) :
    Nat → Side → MState → Option (Side × MState)
  | 0, _, _ => none
  | Nat.succ fuel, opp, st =>
    if st.taker.filled_quantity < st.taker.quantity then
      match opp with
      | [] => some ([], st)
      | (price, lvl) :: restLevels =>
        if crosses isBuy st.taker price then
          let r := levelPass isBuy sym price lvl.orders lvl.total_quantity st
          matchLoop isBuy sym fuel (rebuildOpp price lvl r.1 r.2.1 restLevels)
            r.2.2
        else some ((price, lvl) :: restLevels, st)
    else some (opp, st)

/-- `std::vector<Trade> OrderBook::match_orders(order)`.  Returns the updated
book, the updated taker, the produced trades, and the emitted events; `none`
if the C++ loop would not terminate. -/
def OrderBook.match_orders (b : OrderBook) (taker : Order) :
    Option (OrderBook × Order × List Trade × List BEvent) :=
  if taker.side = OrderSide.buy then
    match matchLoop true b.symbol_ (b.sell_orders_.length + 2) b.sell_orders_
        ⟨taker, b.orders_by_id_, [], [], b.total_trades_,
          b.total_volume_⟩ with
    | none => none
    | some (opp', st) =>
      some ({ b with sell_orders_ := opp', orders_by_id_ := st.store,
                     total_trades_ := st.total_trades_,
                     total_volume_ := st.total_volume_ },
            st.taker, st.trades, st.events)
  else
    match matchLoop false b.symbol_ (b.buy_orders_.length + 2) b.buy_orders_
        ⟨taker, b.orders_by_id_, [], [], b.total_trades_,
          b.total_volume_⟩ with
    | none => none
    | some (opp', st) =>
      some ({ b with buy_orders_ := opp', orders_by_id_ := st.store,
                     total_trades_ := st.total_trades_,
                     total_volume_ := st.total_volume_ },
            st.taker, st.trades, st.events)

/-- `void OrderBook::add_order_to_level(order)`: push onto the (possibly
value-initialized) level at `order->price` on the order's side and grow
`total_quantity` by the remaining quantity. -/
def restLevelF (o : Order) : Level → Level := fun lvl =>
  { lvl with
    price := if lvl.price = 0 then o.price else lvl.price
    orders := lvl.orders ++ [o.id]
    total_quantity := add64 lvl.total_quantity
      (sub64 o.quantity o.filled_quantity) }

def OrderBook.add_order_to_level (b : OrderBook) (o : Order) : OrderBook :=
  if o.side = .buy then
    { b with buy_orders_ :=
        upsertLevel bidBefore o.price (restLevelF o) b.buy_orders_ }
  else
    { b with sell_orders_ :=
        upsertLevel askBefore o.price (restLevelF o) b.sell_orders_ }

/-- `void OrderBook::remove_order_from_level(order)`: find the level at
`order->price`, erase the (first) occurrence of the order, shrink
`total_quantity` by its remaining quantity, drop the level if emptied. -/
def removeFromSide (s : Side) (p : Nat) (i : String) (rem : Nat) : Side :=
  match findLevel s p with
  | none => s
  | some lvl =>
    if i ∈ lvl.orders then
      if lvl.orders.erase i = [] then eraseLevel s p
      else s.map (fun e => if e.1 = p then
        (p, { lvl with orders := lvl.orders.erase i,
                       total_quantity := sub64 lvl.total_quantity rem })
        else e)
    else s

/-- `OrderBook::remove_order_from_level` proper (dispatch on side). -/
def OrderBook.remove_order_from_level (b : OrderBook) (o : Order) :
    OrderBook :=
  if o.side = .buy then
    { b with
      buy_orders_ := removeFromSide b.buy_orders_ o.price o.id
        (sub64 o.quantity o.filled_quantity) }
  else
    { b with
      sell_orders_ := removeFromSide b.sell_orders_ o.price o.id
        (sub64 o.quantity o.filled_quantity) }

/-- Abbreviation for the store-erase step of `cancel_order`
(`orders_by_id_.erase(order_id)`). -/
def eraseStoreOf (b : OrderBook) (i : String) : OrderBook :=
  { b with orders_by_id_ := eraseA b.orders_by_id_ i }

/-- `void OrderBook::process_market_order(order)`: match, then mark the order
`Rejected` if any quantity is left unfilled.  The produced trades are local
to this function in the C++ (they are not returned to `add_order`); only the
events survive. -/
def OrderBook.process_market_order (b : OrderBook) (o : Order) :
    Option (OrderBook × Order × List BEvent) :=
  match b.match_orders o with
  | none => none
  | some (b', o', _trades, ev) =>
    let o'' := if o'.filled_quantity < o'.quantity
      then { o' with status := .rejected } else o'
    some (b', o'', ev)

/-- `void OrderBook::process_stop_order(order)`: reference price is the best
ask for a buy, the best bid for a sell; 0 means unavailable → `Rejected`;
else trigger when the reference has reached `stop_price`, converting the
order to a market order. -/
def OrderBook.process_stop_order (b : OrderBook) (o : Order) :
    Option (OrderBook × Order × List BEvent) :=
  let market_price := if o.side = .buy then b.get_best_ask else b.get_best_bid
  if market_price = 0 then some (b, { o with status := .rejected }, [])
  else
    let triggered := if o.side = .buy then o.stop_price ≤ market_price
      else market_price ≤ o.stop_price
    if triggered then b.process_market_order { o with type := .market }
    else some (b, o, [])

/-- `void OrderBook::process_stop_limit_order(order)`: as
`process_stop_order` but a trigger converts to a limit order, matching and
resting the remainder (the trades are again discarded locally). -/
def OrderBook.process_stop_limit_order (b : OrderBook) (o : Order) :
    Option (OrderBook × Order × List BEvent) :=
  let market_price := if o.side = .buy then b.get_best_ask else b.get_best_bid
  if market_price = 0 then some (b, { o with status := .rejected }, [])
  else
    let triggered := if o.side = .buy then o.stop_price ≤ market_price
      else market_price ≤ o.stop_price
    if triggered then
      (b.match_orders { o with type := OrderType.limit }).map fun r =>
        if r.2.1.filled_quantity < r.2.1.quantity
        then (r.1.add_order_to_level r.2.1, r.2.1, r.2.2.2)
        else (r.1, r.2.1, r.2.2.2)
    else some (b, o, [])

/-- `std::vector<Trade> OrderBook::add_order(order)` (order_book.cpp
360-409): validate; insert into `orders_by_id_`; bump `total_orders_`;
dispatch on type (only the LIMIT branch keeps the trades it produced);
recompute status from the fill; fire the order-update callback; append the
(kept) trades to `trade_history_`. -/
def OrderBook.add_order (b : OrderBook) (o : Order) :
    Option (OrderBook × Order × List Trade × List BEvent) :=
  if o.quantity = 0 ∨ MAX_ORDER_QUANTITY < o.quantity ∨
     (o.type = .limit ∧ (o.price = 0 ∨ MAX_ORDER_PRICE < o.price)) then
    some (b, { o with status := .rejected }, [], [])
  else
    let b₁ := { b with orders_by_id_ := insertA b.orders_by_id_ o.id o,
                       total_orders_ := add64 b.total_orders_ 1 }
    let dispatched : Option (OrderBook × Order × List Trade × List BEvent) :=
      match o.type with
      | .market =>
        (b₁.process_market_order o).map fun r => (r.1, r.2.1, [], r.2.2)
      | .limit =>
        (b₁.match_orders o).map fun r =>
          if r.2.1.filled_quantity < r.2.1.quantity
          then (r.1.add_order_to_level r.2.1, r.2.1, r.2.2.1, r.2.2.2)
          else r
      | .stop =>
        (b₁.process_stop_order o).map fun r => (r.1, r.2.1, [], r.2.2)
      | .stopLimit =>
        (b₁.process_stop_limit_order o).map fun r => (r.1, r.2.1, [], r.2.2)
    dispatched.map fun r =>
      (fun o'' =>
        ({ r.1 with orders_by_id_ := insertA r.1.orders_by_id_ o.id o'',
                    trade_history_ := r.1.trade_history_ ++ r.2.2.1 },
         o'', r.2.2.1, r.2.2.2 ++ [BEvent.orderUpdate o'']))
      (if r.2.1.filled_quantity = r.2.1.quantity
        then { r.2.1 with status := OrderStatus.filled }
        else if 0 < r.2.1.filled_quantity
        then { r.2.1 with status := OrderStatus.partFilled }
        else r.2.1)

/-- `bool OrderBook::cancel_order(order_id)` (order_book.cpp 627-661):
false if unknown or already `Filled`/`Cancelled` (note: `Rejected` is NOT
checked); otherwise mark `Cancelled`, remove from its level when the type is
LIMIT, erase from `orders_by_id_`, emit one order-update. -/
def OrderBook.cancel_order (b : OrderBook) (i : String) :
    OrderBook × Bool × List BEvent :=
  match lookupA b.orders_by_id_ i with
  | none => (b, false, [])
  | some o =>
    if o.status = .filled ∨ o.status = .cancelled then (b, false, [])
    else
      let o' := { o with status := OrderStatus.cancelled }
      let b₁ := if o'.type = .limit then b.remove_order_from_level o' else b
      let b₂ := { b₁ with orders_by_id_ := eraseA b₁.orders_by_id_ i }
      (b₂, true, [.orderUpdate o'])

/-- `bool OrderBook::modify_order(id, new_price, new_quantity)`
(order_book.cpp 663-689): in-place when the price is unchanged and the
quantity does not grow — note the resting level's `total_quantity` is NOT
adjusted; otherwise cancel and re-add a fresh order with the same id/user
(stop price, expiry and tif revert to the constructor defaults). -/
def OrderBook.modify_order (b : OrderBook) (i : String)
    (new_price new_quantity : Nat) : Option (OrderBook × Bool × List BEvent) :=
  match lookupA b.orders_by_id_ i with
  | none => some (b, false, [])
  | some o =>
    if o.status = .filled ∨ o.status = .cancelled then some (b, false, [])
    else if o.quantity ≤ o.filled_quantity then some (b, false, [])
    else if new_quantity ≤ o.quantity ∧ new_price = o.price then
      let o' := { o with quantity := new_quantity }
      some ({ b with orders_by_id_ := insertA b.orders_by_id_ i o' }, true,
        [.orderUpdate o'])
    else
      let r := b.cancel_order i
      let new_order : Order :=
        { id := o.id, symbol := o.symbol, side := o.side, type := o.type,
          price := new_price, stop_price := 0, quantity := new_quantity,
          user_id := o.user_id }
      match r.1.add_order new_order with
      | none => none
      | some (b₂, _o', _tr, ev) => some (b₂, true, r.2.2 ++ ev)

/-- `void OrderBook::cancel_expired_orders()` (order_book.cpp 797-811):
collect ids with `expiry > 0 && expiry <= now && status == NEW`, then cancel
each.  `now` is passed explicitly. -/
def OrderBook.cancel_expired_orders (b : OrderBook) (now : Int) :
    OrderBook × List BEvent :=
  let ids := (b.orders_by_id_.filter fun e =>
    decide (0 < e.2.expiry) && decide (e.2.expiry ≤ now) &&
      decide (e.2.status = OrderStatus.new)).map Prod.fst
  ids.foldl (fun acc i =>
    let r := acc.1.cancel_order i
    (r.1, acc.2 ++ r.2.2)) (b, [])

/-- `void OrderBook::clear()` (order_book.cpp 777-785): empties both sides,
the id map and the three counters — `trade_history_` is NOT cleared. -/
def OrderBook.clear (b : OrderBook) : OrderBook :=
  { b with buy_orders_ := [], sell_orders_ := [], orders_by_id_ := [],
           total_orders_ := 0, total_trades_ := 0, total_volume_ := 0 }

/-- `bool OrderBook::is_empty()`. -/
def OrderBook.is_empty (b : OrderBook) : Bool :=
  b.buy_orders_.isEmpty && b.sell_orders_.isEmpty

/-- `struct EngineStats` (matching_engine.hpp). -/
structure EngineStats where
  total_orders : Nat := 0
  total_trades : Nat := 0
  total_volume : Nat := 0
deriving DecidableEq, Repr

/-- `class MatchingEngine` state (matching_engine.hpp). -/
structure MatchingEngine where
  order_books_ : List (String × OrderBook) := []
  order_id_to_symbol_ : List (String × String) := []
  stats_ : EngineStats := {}
  trade_history_ : List Trade := []
deriving DecidableEq, Repr

/-- `order_books_.try_emplace(symbol, symbol)`: the existing book, or a
fresh one inserted for the symbol. -/
def tryEmplaceBook (books : List (String × OrderBook)) (sym : String) :
    List (String × OrderBook) × OrderBook :=
  match lookupA books sym with
  | some bk => (books, bk)
  | none => (books ++ [(sym, OrderBook.empty sym)], OrderBook.empty sym)

/-- The trades among a list of emitted book events (the invocations the
book's `trade_callback_` would make, in order). -/
def eventTrades (ev : List BEvent) : List Trade :=
  ev.filterMap fun x =>
    match x with
    | .trade t => some t
    | .orderUpdate _ => none

/-- Effect of the engine's per-book trade callback (matching_engine.cpp
14-19) for a batch of emitted events: bump `total_trades`/`total_volume` and
append each trade to the engine-level history, in emission order. -/
def MatchingEngine.absorbTrades (e : MatchingEngine) (ev : List BEvent) :
    MatchingEngine :=
  let ts := eventTrades ev
  { e with
    stats_ := { e.stats_ with
      total_trades := add64 e.stats_.total_trades ts.length
      total_volume := ts.foldl (fun a t => add64 a t.quantity)
        e.stats_.total_volume }
    trade_history_ := e.trade_history_ ++ ts }

/-- `MatchingEngine::add_order` (matching_engine.cpp 8-28). -/
def MatchingEngine.add_order (e : MatchingEngine) (o : Order) :
    Option (MatchingEngine × Order × List Trade × List BEvent) :=
  let bks := tryEmplaceBook e.order_books_ o.symbol
  match bks.2.add_order o with
  | none => none
  | some (b', o', tr, ev) =>
    let e₁ := MatchingEngine.absorbTrades
      { e with order_books_ := insertA bks.1 o.symbol b' } ev
    some ({ e₁ with
      order_id_to_symbol_ := insertA e₁.order_id_to_symbol_ o.id o.symbol,
      stats_ := { e₁.stats_ with
        total_orders := add64 e₁.stats_.total_orders 1 } },
      o', tr, ev)

/-- `MatchingEngine::cancel_order` (matching_engine.cpp 30-49): resolve the
symbol; on success erase the id→symbol entry and decrement `total_orders`
(floored at 0). -/
def MatchingEngine.cancel_order (e : MatchingEngine) (i : String) :
    MatchingEngine × Bool × List BEvent :=
  match lookupA e.order_id_to_symbol_ i with
  | none => (e, false, [])
  | some sym =>
    let bks := tryEmplaceBook e.order_books_ sym
    let r := bks.2.cancel_order i
    if r.2.1 then
      ({ e with order_books_ := insertA bks.1 sym r.1,
                order_id_to_symbol_ := eraseA e.order_id_to_symbol_ i,
                stats_ := { e.stats_ with
                  total_orders := e.stats_.total_orders - 1 } },
        true, r.2.2)
    else
      ({ e with order_books_ := insertA bks.1 sym r.1 }, false, r.2.2)

/-- `MatchingEngine::modify_order` (matching_engine.cpp 51-58); trades
produced by a cancel-and-re-add still reach the engine through the book's
trade callback. -/
def MatchingEngine.modify_order (e : MatchingEngine) (i : String)
    (p q : Nat) : Option (MatchingEngine × Bool × List BEvent) :=
  match lookupA e.order_id_to_symbol_ i with
  | none => some (e, false, [])
  | some sym =>
    let bks := tryEmplaceBook e.order_books_ sym
    match bks.2.modify_order i p q with
    | none => none
    | some (b', res, ev) =>
      some (MatchingEngine.absorbTrades
        { e with order_books_ := insertA bks.1 sym b' } ev, res, ev)

/-- `MatchingEngine::get_stats`. -/
def MatchingEngine.get_stats (e : MatchingEngine) : EngineStats := e.stats_

/-- `MatchingEngine::add_trade_history`. -/
def MatchingEngine.add_trade_history (e : MatchingEngine) (t : Trade) :
    MatchingEngine :=
  { e with trade_history_ := e.trade_history_ ++ [t] }

/-- `MatchingEngine::clear` (matching_engine.cpp 160-167): clears each book
and both maps — `stats_` and `trade_history_` are NOT reset. -/
def MatchingEngine.clear (e : MatchingEngine) : MatchingEngine :=
  { e with order_books_ := [], order_id_to_symbol_ := [] }

/-- The tif post-step of `OrderBookController::placeOrder`
(OrderBookController.cpp 126-129): after `engine->add_order`, cancel the
order when tif is IOC (or FOK) and it is not fully filled. -/
def placeOrderCore (e : MatchingEngine) (o : Order) :
    Option (MatchingEngine × Order × List Trade) :=
  match e.add_order o with
  | none => none
  | some (e₁, o', tr, _ev) =>
    let e₂ := if o'.tif = "IOC" ∧ o'.filled_quantity < o'.quantity
      then (e₁.cancel_order o'.id).1 else e₁
    let e₃ := if o'.tif = "FOK" ∧ o'.filled_quantity < o'.quantity
      then (e₂.cancel_order o'.id).1 else e₂
    some (e₃, o', tr)

/-- The per-book effect of the controller's IOC branch on the submitted
order's own book: `OrderBook::add_order`, then — because
`MatchingEngine::cancel_order` routes the id straight back to this book —
`OrderBook::cancel_order` when the order is not fully filled. -/
def bookIOCStep (b : OrderBook) (o : Order) : Option (OrderBook × Order) :=
  (b.add_order o).map fun r =>
    (if r.2.1.filled_quantity < r.2.1.quantity
      then ((r.1.cancel_order o.id).1) else r.1, r.2.1)

/-- One public mutating operation on a book. -/
inductive Op where
  | add (o : Order)
  | cancel (i : String)
  | modify (i : String) (p q : Nat)
  | cancelExpired (now : Int)
  | clear

/-- Run one operation, keeping only the book (`none` = the C++ call does
not return). -/
def OrderBook.step (b : OrderBook) : Op → Option OrderBook
  | .add o => (b.add_order o).map (·.1)
  | .cancel i => some (b.cancel_order i).1
  | .modify i p q => (b.modify_order i p q).map (·.1)
  | .cancelExpired now => some (b.cancel_expired_orders now).1
  | .clear => some b.clear

/-- Books reachable from a fresh book by completed operations. -/
inductive OrderBook.Reaches : OrderBook → Prop where
  | init (sym : String) : OrderBook.Reaches (OrderBook.empty sym)
  | next {b b' : OrderBook} {op : Op} : OrderBook.Reaches b →
      b.step op = some b' → OrderBook.Reaches b'

/-- Whether order id `i` rests in any price level of `b`. -/
def idInLevels (b : OrderBook) (i : String) : Bool :=
  (b.buy_orders_.any fun pl => pl.2.orders.any fun j => j = i) ||
    (b.sell_orders_.any fun pl => pl.2.orders.any fun j => j = i)

/-- The specification's per-level measurement: `Σ (o.quantity −
o.filled_quantity)` over the level's orders, resolved through the id
store. -/
def levelRemainingSum (store : List (String × Order)) (lvl : Level) : Nat :=
  lvl.orders.foldl (fun a i =>
    match lookupA store i with
    | some o => a + sub64 o.quantity o.filled_quantity
    | none => a) 0

/-! Total wrappers to read off the components of an `add_order` /
`modify_order` run on concrete inputs (defaulting on the unreachable
`none`). -/

/-- The book after `add_order` (the input book if matching diverged). -/
def addB (b : OrderBook) (o : Order) : OrderBook :=
  match b.add_order o with
  | some r => r.1
  | none => b

/-- The submitted order's final state after `add_order`. -/
def addO (b : OrderBook) (o : Order) : Order :=
  match b.add_order o with
  | some r => r.2.1
  | none => o

/-- The trade list returned by `add_order`. -/
def addTrades (b : OrderBook) (o : Order) : List Trade :=
  match b.add_order o with
  | some r => r.2.2.1
  | none => []

/-- The events emitted by `add_order`. -/
def addEvents (b : OrderBook) (o : Order) : List BEvent :=
  match b.add_order o with
  | some r => r.2.2.2
  | none => []

/-- The engine after `MatchingEngine::add_order`. -/
def addE (e : MatchingEngine) (o : Order) : MatchingEngine :=
  match e.add_order o with
  | some r => r.1
  | none => e

/-! Concrete fixtures used by counterexamples and witnesses (the spec's own
scenarios, §8). -/

/-- Resting maker: Sell limit S1 p=100 q=1. -/
def oSell1 : Order :=
  { id := "S1", symbol := "X", side := .sell, type := .limit, price := 100,
    stop_price := 0, quantity := 1, user_id := "bob" }

/-- Taker of spec scenario 4: Buy limit p=100 q=5, tif=IOC. -/
def oBuyIOC5 : Order :=
  { id := "B1", symbol := "X", side := .buy, type := .limit, price := 100,
    stop_price := 0, quantity := 5, user_id := "alice", tif := "IOC" }

/-- Buy limit p=100 q=1 (GTC). -/
def oBuyGTC1 : Order :=
  { id := "B1", symbol := "X", side := .buy, type := .limit, price := 100,
    stop_price := 0, quantity := 1, user_id := "alice" }

/-- The book holding only S1. -/
def bookS1 : OrderBook := addB (OrderBook.empty "X") oSell1

/-- The (book, order) pair produced by the composite IOC step on the
scenario-4 inputs (defaulting on the unreachable `none`). -/
def iocRes : OrderBook × Order :=
  match bookIOCStep bookS1 oBuyIOC5 with
  | some r => r
  | none => (bookS1, oBuyIOC5)

/-- Buy limit B5 p=100 q=5. -/
def oBuy5 : Order :=
  { id := "B5", symbol := "X", side := .buy, type := .limit, price := 100,
    stop_price := 0, quantity := 5, user_id := "alice" }

/-- The book holding only B5. -/
def bookB5 : OrderBook := addB (OrderBook.empty "X") oBuy5

/-- The book after the in-place `modify_order("B5", 100, 3)` on `bookB5`. -/
def bookB5m : OrderBook :=
  match bookB5.modify_order "B5" 100 3 with
  | some r => r.1
  | none => bookB5

/-- Market buy q=5 (against `bookS1`, fills 1 then runs dry). -/
def oMarket5 : Order :=
  { id := "M1", symbol := "X", side := .buy, type := .market, price := 0,
    stop_price := 0, quantity := 5, user_id := "alice" }

/-- Buy stop order into an empty book: no reference ask exists. -/
def oStopNoRef : Order :=
  { id := "ST", symbol := "X", side := .buy, type := .stop, price := 0,
    stop_price := 50, quantity := 1, user_id := "u" }

/-- The book after adding `oStopNoRef` to an empty book (stop rejected but
retained in `orders_by_id_`). -/
def bookStopRej : OrderBook := addB (OrderBook.empty "X") oStopNoRef

/-- A buy stop whose trigger (`stop_price ≤ best_ask`) fails at submission
time against `bookS1` (best ask 100 < 200): it is stored armed. -/
def oStopArmed : Order :=
  { id := "ST", symbol := "X", side := .buy, type := .stop, price := 0,
    stop_price := 200, quantity := 1, user_id := "dan" }

/-- `bookS1` plus the armed stop ST. -/
def bookArmed : OrderBook := addB bookS1 oStopArmed

/-- The book after one further unrelated operation on `bookArmed`
(defaulting on the unreachable `none`). -/
def armedNext : OrderBook :=
  match bookArmed.step (Op.add oBuyGTC1) with
  | some bx => bx
  | none => bookArmed

/-- A buy stop-limit whose trigger (`stop_price ≤ best_ask`) fails at
submission time against `bookS1`: it is stored armed. -/
def oStopLimitArmed : Order :=
  { id := "SL", symbol := "X", side := .buy, type := .stopLimit,
    price := 90, stop_price := 200, quantity := 1, user_id := "erin" }

/-- `bookS1` plus the armed stop-limit SL. -/
def bookArmedSL : OrderBook := addB bookS1 oStopLimitArmed

/-- The book after one further unrelated operation on `bookArmedSL`
(defaulting on the unreachable `none`). -/
def armedNextSL : OrderBook :=
  match bookArmedSL.step (Op.add oBuyGTC1) with
  | some bx => bx
  | none => bookArmedSL

/-- Zero-quantity limit order (fails validation). -/
def oZeroQty : Order :=
  { id := "Z", symbol := "X", side := .buy, type := .limit, price := 10,
    stop_price := 0, quantity := 0, user_id := "u" }

/-- Scenario-3 fixture: first resting buy at 100. -/
def oBuyFifoA : Order :=
  { id := "BF1", symbol := "X", side := .buy, type := .limit, price := 100,
    stop_price := 0, quantity := 1, user_id := "a" }

/-- Scenario-3 fixture: second resting buy at 100 (arrives later). -/
def oBuyFifoB : Order :=
  { id := "BF2", symbol := "X", side := .buy, type := .limit, price := 100,
    stop_price := 0, quantity := 1, user_id := "b" }

/-- Crossing sell limit p=100 q=1. -/
def oSellCross : Order :=
  { id := "SF", symbol := "X", side := .sell, type := .limit, price := 100,
    stop_price := 0, quantity := 1, user_id := "c" }

/-- The book with BF1 then BF2 resting at 100. -/
def bookFifo : OrderBook :=
  addB (addB (OrderBook.empty "X") oBuyFifoA) oBuyFifoB

/-- The full `match_orders` result of the crossing sell against the FIFO
book (defaulting on the unreachable `none`). -/
def fifoM : OrderBook × Order × List Trade × List BEvent :=
  match OrderBook.match_orders bookFifo oSellCross with
  | some r => r
  | none => (bookFifo, oSellCross, [], [])

/-- Engine that matched one trade: S1 rested, then B1 (q=1) crossed. -/
def engCross : MatchingEngine :=
  addE (addE {} oSell1) oBuyGTC1

/-! Predicates used to state the general theorems. -/

/-- `o` with only its `filled_quantity` replaced (matching mutates takers
only through their fill). -/
def Order.withFilled (o : Order) (f : Nat) : Order :=
  { o with filled_quantity := f }

/-- All order ids resting in some level of a side. -/
def sideIds (s : Side) : List String :=
  s.foldr (fun e a => e.2.orders ++ a) []

/-- The bid map iterates price-descending (`std::greater` keys, no
duplicates). -/
def SortedBids (s : Side) : Prop := s.Pairwise (fun a b => b.1 < a.1)

/-- The ask map iterates price-ascending. -/
def SortedAsks (s : Side) : Prop := s.Pairwise (fun a b => a.1 < b.1)

/-- No resting bid price is ≥ any resting ask price. -/
def Uncrossed (b : OrderBook) : Prop :=
  ∀ pb ∈ b.buy_orders_.map Prod.fst, ∀ pa ∈ b.sell_orders_.map Prod.fst,
    pb < pa

/-- The structural facts `std::map` gives the C++ book for free, plus the
no-crossing invariant. -/
def BookOrdered (b : OrderBook) : Prop :=
  SortedBids b.buy_orders_ ∧ SortedAsks b.sell_orders_ ∧ Uncrossed b

/-- Level keys are duplicate-free on each side and each level's FIFO deque
holds an id at most once (automatic in the C++, where levels are keyed by a
`std::map` and a pointer rests in one deque position). -/
def TidyLevels (b : OrderBook) : Prop :=
  (b.buy_orders_.map Prod.fst).Nodup ∧
  (b.sell_orders_.map Prod.fst).Nodup ∧
  (∀ e ∈ b.buy_orders_, e.2.orders.Nodup) ∧
  (∀ e ∈ b.sell_orders_, e.2.orders.Nodup)

/-- Order `i` rests, if anywhere, only in the level at key `p` on side
`sd`. -/
def restsOnlyAt (b : OrderBook) (i : String) (sd : OrderSide) (p : Nat) :
    Prop :=
  (∀ e ∈ b.buy_orders_, i ∈ e.2.orders → sd = OrderSide.buy ∧ e.1 = p) ∧
  (∀ e ∈ b.sell_orders_, i ∈ e.2.orders → sd = OrderSide.sell ∧ e.1 = p)

/-- An armed (submitted but untriggered) Stop or StopLimit order: present
in the id store with status `New` and zero fill, resting in no level; the
store's keys are duplicate-free (as for `std::map`). -/
def ArmedStop (b : OrderBook) (i : String) (o : Order) : Prop :=
  b.get_order i = some o ∧
  (o.type = OrderType.stop ∨ o.type = OrderType.stopLimit) ∧
  o.status = OrderStatus.new ∧ o.filled_quantity = 0 ∧
  idInLevels b i = false ∧ (b.orders_by_id_.map Prod.fst).Nodup

/-- Operations that neither target order `i` (cancel/modify/duplicate-id
add), nor sweep it as expired, nor wipe the book. -/
def OpAvoids (op : Op) (i : String) (exp : Int) : Prop :=
  match op with
  | .add o' => o'.id ≠ i
  | .cancel j => j ≠ i
  | .modify j _ _ => j ≠ i
  | .cancelExpired now => ¬(0 < exp ∧ exp ≤ now)
  | .clear => False

/-!  ## Theorems  -/

/-- **C1** (counterexample).  The claim says an unfilled IOC remainder is
cancelled by `OrderBook::add_order` itself and does not rest.  Running the
spec's own scenario 4 — resting Sell S1 p=100 q=1, then Buy limit p=100 q=5
with tif=IOC — through `OrderBook::add_order` produces the single expected
trade but the 4-lot remainder DOES rest on the bid side: B1 sits in a price
level and `best_bid` becomes 100 (it was 0 before the submit). -/
theorem C1_ioc_counterexample :
    addTrades bookS1 oBuyIOC5 = [⟨"B1", "S1", "X", 100, 1⟩] ∧
    idInLevels (addB bookS1 oBuyIOC5) "B1" = true ∧
    (addB bookS1 oBuyIOC5).get_best_bid = 100 ∧
    bookS1.get_best_bid = 0 := by decide

/-- **C3** (counterexample).  The claim says a market order with any
unfilled remainder ends `Rejected`.  A market buy q=5 against the book
holding only S1 (q=1) fills one lot; `process_market_order` marks it
`Rejected`, but `add_order`'s final status recomputation overwrites that
with `PARTIAL`, so the status observed after `add_order` returns is
`PARTIAL`, not `Rejected`. -/
theorem C3_market_counterexample :
    (addO bookS1 oMarket5).filled_quantity = 1 ∧
    (addO bookS1 oMarket5).status = OrderStatus.partFilled ∧
    OrderStatus.partFilled ≠ OrderStatus.rejected := by decide

/-- **C5** (counterexample).  The claim says `cancel_order` returns true iff
the order's status is non-terminal (not Filled, Cancelled, or Rejected).
A buy stop submitted into an empty book is `Rejected` yet stays in
`orders_by_id_`, and `cancel_order` then returns TRUE for it (the code only
checks Filled/Cancelled). -/
theorem C5_cancel_counterexample :
    (bookStopRej.get_order "ST").map Order.status =
      some OrderStatus.rejected ∧
    (bookStopRej.cancel_order "ST").2.1 = true := by decide

/-- **C2** (counterexample).  Two discrepancies with the claim: (a) a
quantity-0 order is rejected with NO order-update event (the claim demands
exactly one `Rejected` update — the validation path returns before the
callback); (b) a stop order rejected for a missing reference price stays in
`orders_by_id_` and bumps `total_orders_` (the claim demands an unchanged
book). -/
theorem C2_reject_counterexample :
    addEvents (OrderBook.empty "X") oZeroQty = [] ∧
    (addO (OrderBook.empty "X") oZeroQty).status = OrderStatus.rejected ∧
    (bookStopRej.get_order "ST").isSome = true ∧
    bookStopRej.total_orders_ = 1 := by decide

/-- **C8** (counterexample).  After one matched trade, `MatchingEngine::clear`
leaves `stats_ = {2,1,1}` and a 1-element engine trade history (the claim
says both reset), and `OrderBook::clear` likewise keeps the book's trade
history. -/
theorem C8_clear_counterexample :
    engCross.clear.stats_ = ⟨2, 1, 1⟩ ∧
    engCross.clear.trade_history_.length = 1 ∧
    (addB (addB (OrderBook.empty "X") oSell1) oBuyGTC1).clear.trade_history_
      ≠ [] := by decide

/-- **C4** (code bug).  The spec's level invariant `total_quantity =
Σ (quantity − filled_quantity)` is maintained by every path except the
in-place branch of `modify_order`, which shrinks the order's quantity
without touching the level's `total_quantity`: after
`modify_order("B5", 100, 3)` on a book holding the single resting buy B5
q=5, the level still records `total_quantity = 5` while the true remaining
sum is 3. -/
theorem C4_level_sum_bug :
    (bookB5.modify_order "B5" 100 3).map (·.2.1) = some true ∧
    (findLevel bookB5m.buy_orders_ 100).map Level.total_quantity = some 5 ∧
    (findLevel bookB5m.buy_orders_ 100).map
      (levelRemainingSum bookB5m.orders_by_id_) = some 3 := by decide

/-- **C9** (confirmed).  `modify_order` on the live resting order B5 with
`new_quantity = 1000001 > MAX_ORDER_QUANTITY` takes the cancel-and-re-add
path: the re-add is rejected by validation, yet `modify_order` returns
`true`, and the order is gone from the book entirely — `get_order` is
`none` and the bid side is empty. -/
theorem C9_modify_vanish :
    (bookB5.get_order "B5").isSome = true ∧
    (bookB5.modify_order "B5" 100 1000001).map (·.2.1) = some true ∧
    (bookB5.modify_order "B5" 100 1000001).map (·.1.get_order "B5") =
      some none ∧
    (bookB5.modify_order "B5" 100 1000001).map (·.1.buy_orders_) =
      some [] := by decide

/-!  ### Association-list and side lemmas  -/

theorem lookupA_insertA_self {β : Type} (l : List (String × β)) (k : String)
    (v : β) : lookupA (insertA l k v) k = some v := by
  induction l with
  | nil => simp [insertA, lookupA]
  | cons e rest ih =>
    obtain ⟨k', v'⟩ := e
    by_cases h : k' = k
    · simp [insertA, lookupA, h]
    · simp [insertA, lookupA, h, ih]

theorem lookupA_insertA_ne {β : Type} (l : List (String × β))
    (k k' : String) (v : β) (h : k ≠ k') :
    lookupA (insertA l k v) k' = lookupA l k' := by
  induction l with
  | nil => simp [insertA, lookupA, h]
  | cons e rest ih =>
    obtain ⟨k₀, v₀⟩ := e
    by_cases h₀ : k₀ = k
    · subst h₀
      simp [insertA, lookupA, h]
    · simp only [insertA, if_neg h₀]
      by_cases h₁ : k₀ = k'
      · simp [lookupA, h₁]
      · simp [lookupA, h₁, ih]

theorem insertA_insertA {β : Type} (l : List (String × β)) (k : String)
    (v w : β) : insertA (insertA l k v) k w = insertA l k w := by
  induction l with
  | nil => simp [insertA]
  | cons e rest ih =>
    obtain ⟨k₀, v₀⟩ := e
    by_cases h₀ : k₀ = k
    · simp [insertA, h₀]
    · simp [insertA, h₀, ih]

theorem lookupA_eq_none_iff {β : Type} (l : List (String × β)) (k : String) :
    lookupA l k = none ↔ k ∉ l.map Prod.fst := by
  induction l with
  | nil => simp [lookupA]
  | cons e rest ih =>
    obtain ⟨k₀, v₀⟩ := e
    by_cases h₀ : k₀ = k
    · simp [lookupA, h₀]
    · simp [lookupA, h₀, ih, Ne.symm h₀]

theorem lookupA_eraseA_ne {β : Type} (l : List (String × β))
    (k k' : String) (h : k ≠ k') :
    lookupA (eraseA l k) k' = lookupA l k' := by
  induction l with
  | nil => simp [eraseA]
  | cons e rest ih =>
    obtain ⟨k₀, v₀⟩ := e
    by_cases h₀ : k₀ = k
    · subst h₀
      simp [eraseA, lookupA, h]
    · simp [eraseA, lookupA, h₀, ih]

theorem eraseA_sublist {β : Type} (l : List (String × β)) (k : String) :
    (eraseA l k).Sublist l := by
  induction l with
  | nil => simp [eraseA]
  | cons e rest ih =>
    obtain ⟨k₀, v₀⟩ := e
    by_cases h₀ : k₀ = k
    · simp only [eraseA, if_pos h₀]
      exact (List.sublist_cons_self _ _)
    · simp only [eraseA, if_neg h₀]
      exact List.Sublist.cons₂ _ ih

theorem lookupA_eraseA_self {β : Type} (l : List (String × β)) (k : String)
    (h : (l.map Prod.fst).Nodup) : lookupA (eraseA l k) k = none := by
  induction l with
  | nil => simp [eraseA, lookupA]
  | cons e rest ih =>
    obtain ⟨k₀, v₀⟩ := e
    simp only [List.map_cons, List.nodup_cons] at h
    by_cases h₀ : k₀ = k
    · subst h₀
      simp only [eraseA, if_pos rfl]
      exact (lookupA_eq_none_iff rest k₀).2 h.1
    · simp [eraseA, lookupA, h₀, ih h.2]

theorem insertA_map_fst_of_mem {β : Type} (l : List (String × β))
    (k : String) (v : β) (h : k ∈ l.map Prod.fst) :
    (insertA l k v).map Prod.fst = l.map Prod.fst := by
  induction l with
  | nil => simp at h
  | cons e rest ih =>
    obtain ⟨k₀, v₀⟩ := e
    by_cases h₀ : k₀ = k
    · simp [insertA, h₀]
    · simp only [List.map_cons, List.mem_cons] at h
      rcases h with h | h

      · exact absurd h.symm h₀
      · simp [insertA, h₀, ih h]

theorem mem_map_fst_insertA {β : Type} (l : List (String × β))
    (k a : String) (v : β) (h : a ∈ (insertA l k v).map Prod.fst) :
    a = k ∨ a ∈ l.map Prod.fst := by
  induction l with
  | nil => simpa [insertA] using h
  | cons e rest ih =>
    obtain ⟨k₀, v₀⟩ := e
    by_cases h₀ : k₀ = k
    · simp only [insertA, if_pos h₀, List.map_cons, List.mem_cons] at h
      rcases h with h | h
      · exact Or.inr (by simp [h])
      · exact Or.inr (by simp [h])
    · simp only [insertA, if_neg h₀, List.map_cons, List.mem_cons] at h
      rcases h with h | h
      · exact Or.inr (by simp [h])
      · rcases ih h with h | h
        · exact Or.inl h
        · exact Or.inr (by simp [h])

theorem insertA_map_fst_nodup {β : Type} (l : List (String × β))
    (k : String) (v : β) (h : (l.map Prod.fst).Nodup) :
    ((insertA l k v).map Prod.fst).Nodup := by
  induction l with
  | nil => simp [insertA]
  | cons e rest ih =>
    obtain ⟨k₀, v₀⟩ := e
    simp only [List.map_cons, List.nodup_cons] at h
    by_cases h₀ : k₀ = k
    · simp only [insertA, if_pos h₀, List.map_cons, List.nodup_cons]
      exact ⟨h₀ ▸ h.1, h.2⟩
    · simp only [insertA, if_neg h₀, List.map_cons, List.nodup_cons]
      refine ⟨fun hm => ?_, ih h.2⟩
      rcases mem_map_fst_insertA rest k k₀ v hm with h' | h'
      · exact h₀ h'
      · exact h.1 h'

theorem findLevel_eq_none_iff (s : Side) (p : Nat) :
    findLevel s p = none ↔ ∀ e ∈ s, e.1 ≠ p := by
  induction s with
  | nil => simp [findLevel]
  | cons e rest ih =>
    obtain ⟨p₀, lvl₀⟩ := e
    by_cases h₀ : p₀ = p
    · simp [findLevel, h₀]
    · simp [findLevel, h₀, ih]

theorem eraseLevel_sublist (s : Side) (p : Nat) :
    (eraseLevel s p).Sublist s := by
  induction s with
  | nil => simp [eraseLevel]
  | cons e rest ih =>
    obtain ⟨p₀, lvl₀⟩ := e
    by_cases h₀ : p₀ = p
    · simp only [eraseLevel, if_pos h₀]
      exact (List.sublist_cons_self _ _)
    · simp only [eraseLevel, if_neg h₀]
      exact List.Sublist.cons₂ _ ih

theorem mem_map_fst_upsertLevel (bf : Nat → Nat → Bool) (p : Nat)
    (f : Level → Level) (s : Side) (a : Nat)
    (h : a ∈ (upsertLevel bf p f s).map Prod.fst) :
    a = p ∨ a ∈ s.map Prod.fst := by
  induction s with
  | nil => simpa [upsertLevel] using h
  | cons e rest ih =>
    obtain ⟨p₀, lvl₀⟩ := e
    by_cases h₀ : p₀ = p
    · simp only [upsertLevel, if_pos h₀, List.map_cons, List.mem_cons] at h
      rcases h with h | h
      · exact Or.inl (h.trans h₀)
      · exact Or.inr (by simp [h])
    · simp only [upsertLevel, if_neg h₀] at h
      by_cases h₁ : bf p p₀
      · simp only [if_pos h₁, List.map_cons, List.mem_cons] at h
        rcases h with h | h
        · exact Or.inl h
        · exact Or.inr (by simpa using h)
      · simp only [if_neg h₁, List.map_cons, List.mem_cons] at h
        rcases h with h | h
        · exact Or.inr (by simp [h])
        · rcases ih h with h | h
          · exact Or.inl h
          · exact Or.inr (by simp [h])

theorem upsertLevel_pairwise (lt : Nat → Nat → Prop)
    (bf : Nat → Nat → Bool)
    (hbf : ∀ a b, bf a b = true → lt a b)
    (htot : ∀ a b, a ≠ b → bf a b = false → lt b a)
    (htrans : ∀ {a b c}, lt a b → lt b c → lt a c)
    (p : Nat) (f : Level → Level) (s : Side)
    (h : s.Pairwise (fun a b => lt a.1 b.1)) :
    (upsertLevel bf p f s).Pairwise (fun a b => lt a.1 b.1) := by
  induction s with
  | nil => simp [upsertLevel]
  | cons e rest ih =>
    obtain ⟨p₀, lvl₀⟩ := e
    rw [List.pairwise_cons] at h
    by_cases h₀ : p₀ = p
    · simp only [upsertLevel, if_pos h₀]
      exact List.pairwise_cons.2 ⟨h.1, h.2⟩
    · simp only [upsertLevel, if_neg h₀]
      by_cases h₁ : bf p p₀
      · simp only [if_pos h₁]
        refine List.pairwise_cons.2 ⟨?_, List.pairwise_cons.2 ⟨h.1, h.2⟩⟩
        intro e' he'
        rcases List.mem_cons.1 he' with he' | he'
        · subst he'
          exact hbf _ _ h₁
        · exact htrans (hbf _ _ h₁) (h.1 e' he')
      · simp only [if_neg h₁]
        refine List.pairwise_cons.2 ⟨?_, ih h.2⟩
        intro e' he'
        rcases mem_map_fst_upsertLevel bf p f rest e'.1
          (List.mem_map_of_mem Prod.fst he') with h' | h'
        · rw [h']
          exact htot p p₀ (fun hpe => h₀ hpe.symm) (by simpa using h₁)
        · rcases List.mem_map.1 h' with ⟨e'', he'', hfst⟩
          have := h.1 e'' he''
          rw [← hfst]
          exact this

theorem mem_of_lookupA_some {β : Type} {l : List (String × β)} {k : String}
    {v : β} (h : lookupA l k = some v) : k ∈ l.map Prod.fst := by
  by_contra hn
  rw [(lookupA_eq_none_iff l k).2 hn] at h
  exact Option.noConfusion h

theorem Order.withFilled_self (o : Order) :
    o.withFilled o.filled_quantity = o := rfl

theorem Order.withFilled_withFilled (o : Order) (f g : Nat) :
    (o.withFilled f).withFilled g = o.withFilled g := rfl

/-- Combined structural facts about one inner matching pass: only the
taker's fill changes; survivors are a sublist of the incoming FIFO; store
entries outside the processed ids are untouched; the store's key list is
unchanged; new trades are appended and all carry the level's price. -/
theorem levelPass_spec (isBuy : Bool) (sym : String) (price : Nat)
    (ids : List String) (lvlTotal : Nat) (st : MState) :
    (∃ f, (levelPass isBuy sym price ids lvlTotal st).2.2.taker
        = st.taker.withFilled f) ∧
    (levelPass isBuy sym price ids lvlTotal st).1.Sublist ids ∧
    (∀ j, j ∉ ids →
      lookupA (levelPass isBuy sym price ids lvlTotal st).2.2.store j
        = lookupA st.store j) ∧
    ((levelPass isBuy sym price ids lvlTotal st).2.2.store.map Prod.fst
        = st.store.map Prod.fst) ∧
    (∃ ts, (levelPass isBuy sym price ids lvlTotal st).2.2.trades
        = st.trades ++ ts ∧ ∀ t ∈ ts, t.price = price) := by
  induction ids generalizing lvlTotal st with
  | nil =>
    exact ⟨⟨st.taker.filled_quantity, (Order.withFilled_self st.taker).symm⟩,
      by simp [levelPass], fun j _ => rfl, rfl,
      ⟨[], by simp [levelPass], by simp⟩⟩
  | cons i rest ih =>
    simp only [levelPass]
    cases hlk : lookupA st.store i with
    | none =>
      obtain ⟨⟨f, hf⟩, hsub, hst, hkeys, ⟨ts, hts, htp⟩⟩ := ih lvlTotal st
      refine ⟨⟨f, hf⟩, List.Sublist.cons₂ _ hsub, ?_, hkeys, ⟨ts, hts, htp⟩⟩
      intro j hj
      exact hst j (fun hm => hj (List.mem_cons_of_mem _ hm))
    | some m =>
      by_cases hq : min (sub64 st.taker.quantity st.taker.filled_quantity)
          (sub64 m.quantity m.filled_quantity) = 0
      · simp only [if_pos hq]
        obtain ⟨⟨f, hf⟩, hsub, hst, hkeys, ⟨ts, hts, htp⟩⟩ := ih lvlTotal st
        refine ⟨⟨f, hf⟩, List.Sublist.cons₂ _ hsub, ?_, hkeys, ⟨ts, hts, htp⟩⟩
        intro j hj
        exact hst j (fun hm => hj (List.mem_cons_of_mem _ hm))
      · simp only [if_neg hq]
        have hmemi : i ∈ st.store.map Prod.fst := mem_of_lookupA_some hlk
        by_cases hmf : add64 m.filled_quantity
            (min (sub64 st.taker.quantity st.taker.filled_quantity)
              (sub64 m.quantity m.filled_quantity)) = m.quantity
        · simp only [if_pos hmf]
          by_cases htf : add64 st.taker.filled_quantity
              (min (sub64 st.taker.quantity st.taker.filled_quantity)
                (sub64 m.quantity m.filled_quantity)) = st.taker.quantity
          · simp only [if_pos htf]
            refine ⟨⟨_, rfl⟩, List.sublist_cons_self _ _, ?_, ?_, ?_⟩
            · intro j hj
              exact lookupA_insertA_ne _ i j _
                (fun h => hj (h ▸ List.mem_cons_self i rest))
            · exact insertA_map_fst_of_mem _ _ _ hmemi
            · refine ⟨_, rfl, ?_⟩
              intro t ht
              rcases List.mem_singleton.1 ht with h
              subst h
              split <;> rfl
          · simp only [if_neg htf]
            obtain ⟨⟨f, hf⟩, hsub, hst, hkeys, ⟨ts, hts, htp⟩⟩ :=
              ih (sub64 lvlTotal _) _
            refine ⟨⟨f, by rw [hf]; rfl⟩, List.Sublist.cons _ hsub,
              ?_, ?_, ?_⟩
            · intro j hj
              rw [hst j (fun hm => hj (List.mem_cons_of_mem _ hm))]
              exact lookupA_insertA_ne _ i j _
                (fun h => hj (h ▸ List.mem_cons_self i rest))
            · rw [hkeys]
              exact insertA_map_fst_of_mem _ _ _ hmemi
            · refine ⟨(if isBuy then
                  Trade.mk st.taker.id i sym price
                    (min (sub64 st.taker.quantity st.taker.filled_quantity)
                      (sub64 m.quantity m.filled_quantity))
                else
                  Trade.mk i st.taker.id sym price
                    (min (sub64 st.taker.quantity st.taker.filled_quantity)
                      (sub64 m.quantity m.filled_quantity))) :: ts, ?_, ?_⟩
              · rw [hts]
                simp
              · intro t ht
                rcases List.mem_cons.1 ht with h | h
                · subst h
                  split <;> rfl
                · exact htp t h
        · simp only [if_neg hmf]
          by_cases htf : add64 st.taker.filled_quantity
              (min (sub64 st.taker.quantity st.taker.filled_quantity)
                (sub64 m.quantity m.filled_quantity)) = st.taker.quantity
          · simp only [if_pos htf]
            refine ⟨⟨_, rfl⟩, List.Sublist.refl _, ?_, ?_, ?_⟩
            · intro j hj
              exact lookupA_insertA_ne _ i j _
                (fun h => hj (h ▸ List.mem_cons_self i rest))
            · exact insertA_map_fst_of_mem _ _ _ hmemi
            · refine ⟨_, rfl, ?_⟩
              intro t ht
              rcases List.mem_singleton.1 ht with h
              subst h
              split <;> rfl
          · simp only [if_neg htf]
            obtain ⟨⟨f, hf⟩, hsub, hst, hkeys, ⟨ts, hts, htp⟩⟩ :=
              ih (sub64 lvlTotal _) _
            refine ⟨⟨f, by rw [hf]; rfl⟩, List.Sublist.cons₂ _ hsub,
              ?_, ?_, ?_⟩
            · intro j hj
              rw [hst j (fun hm => hj (List.mem_cons_of_mem _ hm))]
              exact lookupA_insertA_ne _ i j _
                (fun h => hj (h ▸ List.mem_cons_self i rest))
            · rw [hkeys]
              exact insertA_map_fst_of_mem _ _ _ hmemi
            · refine ⟨(if isBuy then
                  Trade.mk st.taker.id i sym price
                    (min (sub64 st.taker.quantity st.taker.filled_quantity)
                      (sub64 m.quantity m.filled_quantity))
                else
                  Trade.mk i st.taker.id sym price
                    (min (sub64 st.taker.quantity st.taker.filled_quantity)
                      (sub64 m.quantity m.filled_quantity))) :: ts, ?_, ?_⟩
              · rw [hts]
                simp
              · intro t ht
                rcases List.mem_cons.1 ht with h | h
                · subst h
                  split <;> rfl
                · exact htp t h

theorem sideIds_cons (p : Nat) (lvl : Level) (rest : Side) :
    sideIds ((p, lvl) :: rest) = lvl.orders ++ sideIds rest := rfl

theorem matchLoop_succ_nil (isBuy : Bool) (sym : String) (fuel : Nat)
    (st : MState) : matchLoop isBuy sym (fuel + 1) [] st = some ([], st) := by
  show (if st.taker.filled_quantity < st.taker.quantity then some (([] : Side), st)
    else some (([] : Side), st)) = some ([], st)
  split <;> rfl

theorem matchLoop_succ_cons (isBuy : Bool) (sym : String) (fuel : Nat)
    (price : Nat) (lvl : Level) (restLevels : Side) (st : MState) :
    matchLoop isBuy sym (fuel + 1) ((price, lvl) :: restLevels) st =
      if st.taker.filled_quantity < st.taker.quantity then
        (if crosses isBuy st.taker price then
          matchLoop isBuy sym fuel
            (rebuildOpp price lvl
              (levelPass isBuy sym price lvl.orders lvl.total_quantity st).1
              (levelPass isBuy sym price lvl.orders lvl.total_quantity st).2.1
              restLevels)
            (levelPass isBuy sym price lvl.orders lvl.total_quantity st).2.2
        else some ((price, lvl) :: restLevels, st))
      else some ((price, lvl) :: restLevels, st) := rfl

/-- Combined structural facts about the outer matching loop, for completed
(`some`) runs: only the taker's fill changes; the surviving opposing keys
are a suffix of the incoming ones; surviving resting ids come from the
incoming ones; store entries for ids resting nowhere on the opposing side
are untouched and the store's key list is unchanged; if the taker is still
unfilled the opposing side is exhausted or its best level no longer
crosses; trades only accumulate. -/
theorem matchLoop_spec (isBuy : Bool) (sym : String) (fuel : Nat)
    (opp : Side) (st : MState) (opp' : Side) (st' : MState)
    (h : matchLoop isBuy sym fuel opp st = some (opp', st')) :
    (∃ f, st'.taker = st.taker.withFilled f) ∧
    (opp'.map Prod.fst).IsSuffix (opp.map Prod.fst) ∧
    (∀ j, j ∈ sideIds opp' → j ∈ sideIds opp) ∧
    (∀ j, j ∉ sideIds opp → lookupA st'.store j = lookupA st.store j) ∧
    (st'.store.map Prod.fst = st.store.map Prod.fst) ∧
    (st'.taker.filled_quantity < st'.taker.quantity →
      opp' = [] ∨ ∃ p lvl rest2, opp' = (p, lvl) :: rest2 ∧
        crosses isBuy st'.taker p = false) ∧
    (∀ e ∈ opp', ∃ e₀ ∈ opp, e.1 = e₀.1 ∧
      e.2.orders.Sublist e₀.2.orders) ∧
    (∃ ts, st'.trades = st.trades ++ ts) := by
  induction fuel generalizing opp st with
  | zero => exact absurd h (by simp [matchLoop])
  | succ fuel ih =>
    match opp with
    | [] =>
      rw [matchLoop_succ_nil] at h
      simp only [Option.some.injEq, Prod.mk.injEq] at h
      obtain ⟨h1, h2⟩ := h
      subst h1; subst h2
      exact ⟨⟨st.taker.filled_quantity,
          (Order.withFilled_self st.taker).symm⟩,
        by simp, fun j hj => hj, fun j _ => rfl, rfl,
        fun _ => Or.inl rfl,
        fun e he => ⟨e, he, rfl, List.Sublist.refl _⟩, ⟨[], by simp⟩⟩
    | (price, lvl) :: restLevels =>
      rw [matchLoop_succ_cons] at h
      by_cases hg : st.taker.filled_quantity < st.taker.quantity
      · rw [if_pos hg] at h
        by_cases hc : crosses isBuy st.taker price
        · rw [if_pos hc] at h
          obtain ⟨⟨f, hf⟩, hsub, hstore, hkeys, ⟨ts, hts, _⟩⟩ :=
            levelPass_spec isBuy sym price lvl.orders lvl.total_quantity st
          obtain ⟨⟨f', hf'⟩, hsfx, hids, hstore', hkeys', hstop, hlvl',
            ⟨ts', hts'⟩⟩ := ih _ _ h
          have hidsub : ∀ j, j ∈ sideIds (rebuildOpp price lvl
              (levelPass isBuy sym price lvl.orders lvl.total_quantity st).1
              (levelPass isBuy sym price lvl.orders lvl.total_quantity st).2.1
              restLevels) → j ∈ sideIds ((price, lvl) :: restLevels) := by
            intro j hj
            rw [sideIds_cons]
            unfold rebuildOpp at hj
            split at hj
            · exact List.mem_append_right _ hj
            · rw [sideIds_cons] at hj
              rcases List.mem_append.1 hj with hj | hj
              · exact List.mem_append_left _ (hsub.subset hj)
              · exact List.mem_append_right _ hj
          have hkeysfx : ((rebuildOpp price lvl
              (levelPass isBuy sym price lvl.orders lvl.total_quantity st).1
              (levelPass isBuy sym price lvl.orders lvl.total_quantity st).2.1
              restLevels).map Prod.fst).IsSuffix
              (((price, lvl) :: restLevels).map Prod.fst) := by
            unfold rebuildOpp
            split
            · exact (List.suffix_cons price _).trans (by simp)
            · simp
          have hlvlstep : ∀ e ∈ rebuildOpp price lvl
              (levelPass isBuy sym price lvl.orders lvl.total_quantity st).1
              (levelPass isBuy sym price lvl.orders lvl.total_quantity st).2.1
              restLevels, ∃ e₀ ∈ (price, lvl) :: restLevels,
              e.1 = e₀.1 ∧ e.2.orders.Sublist e₀.2.orders := by
            intro e he
            unfold rebuildOpp at he
            split at he
            · exact ⟨e, List.mem_cons_of_mem _ he, rfl, List.Sublist.refl _⟩
            · rcases List.mem_cons.1 he with he | he
              · subst he
                exact ⟨(price, lvl), List.mem_cons_self _ _, rfl, hsub⟩
              · exact ⟨e, List.mem_cons_of_mem _ he, rfl,
                  List.Sublist.refl _⟩
          refine ⟨⟨f', by rw [hf', hf]; exact
              Order.withFilled_withFilled st.taker f f'⟩,
            hsfx.trans hkeysfx, ?_, ?_, ?_, hstop, ?_, ?_⟩
          · exact fun j hj => hidsub j (hids j hj)
          · intro j hj
            have hj1 : j ∉ lvl.orders := fun hm =>
              hj (by rw [sideIds_cons]; exact List.mem_append_left _ hm)
            have hj2 : j ∉ sideIds (rebuildOpp price lvl _ _ restLevels) :=
              fun hm => hj (hidsub j hm)
            rw [hstore' j hj2, hstore j hj1]
          · rw [hkeys', hkeys]
          · intro e he
            obtain ⟨e₁, he₁, hk1, hs1⟩ := hlvl' e he
            obtain ⟨e₀, he₀, hk0, hs0⟩ := hlvlstep e₁ he₁
            exact ⟨e₀, he₀, hk1.trans hk0, hs1.trans hs0⟩
          · exact ⟨ts ++ ts', by rw [hts', hts, List.append_assoc]⟩
        · rw [if_neg hc] at h
          simp only [Option.some.injEq, Prod.mk.injEq] at h
          obtain ⟨h1, h2⟩ := h
          subst h1; subst h2
          exact ⟨⟨st.taker.filled_quantity,
              (Order.withFilled_self st.taker).symm⟩,
            List.suffix_refl _, fun j hj => hj, fun j _ => rfl, rfl,
            fun _ => Or.inr ⟨price, lvl, restLevels, rfl, by
              simpa using hc⟩,
            fun e he => ⟨e, he, rfl, List.Sublist.refl _⟩, ⟨[], by simp⟩⟩
      · rw [if_neg hg] at h
        simp only [Option.some.injEq, Prod.mk.injEq] at h
        obtain ⟨h1, h2⟩ := h
        subst h1; subst h2
        exact ⟨⟨st.taker.filled_quantity,
            (Order.withFilled_self st.taker).symm⟩,
          List.suffix_refl _, fun j hj => hj, fun j _ => rfl, rfl,
          fun hlt => absurd hlt hg,
          fun e he => ⟨e, he, rfl, List.Sublist.refl _⟩, ⟨[], by simp⟩⟩

theorem mem_sideIds_iff (s : Side) (j : String) :
    j ∈ sideIds s ↔ ∃ e ∈ s, j ∈ e.2.orders := by
  induction s with
  | nil => simp [sideIds]
  | cons e rest ih =>
    obtain ⟨p, lvl⟩ := e
    rw [sideIds_cons]
    simp only [List.mem_append, ih, List.mem_cons]
    constructor
    · rintro (h | ⟨e', he', hj⟩)
      · exact ⟨(p, lvl), Or.inl rfl, h⟩
      · exact ⟨e', Or.inr he', hj⟩
    · rintro ⟨e', he' | he', hj⟩
      · subst he'
        exact Or.inl hj
      · exact Or.inr ⟨e', he', hj⟩

theorem idInLevels_eq_false_iff (b : OrderBook) (i : String) :
    idInLevels b i = false ↔
      i ∉ sideIds b.buy_orders_ ∧ i ∉ sideIds b.sell_orders_ := by
  simp only [idInLevels, Bool.or_eq_false_iff, List.any_eq_false,
    List.any_eq_true, decide_eq_true_eq, not_exists, not_and,
    mem_sideIds_iff]
  aesop

/-- Structural facts about one full `match_orders` call. -/
theorem match_orders_spec (b : OrderBook) (taker : Order) (b' : OrderBook)
    (o' : Order) (tr : List Trade) (ev : List BEvent)
    (h : b.match_orders taker = some (b', o', tr, ev)) :
    (∃ f, o' = taker.withFilled f) ∧
    b'.symbol_ = b.symbol_ ∧ b'.total_orders_ = b.total_orders_ ∧
    b'.trade_history_ = b.trade_history_ ∧
    (b'.orders_by_id_.map Prod.fst = b.orders_by_id_.map Prod.fst) ∧
    (taker.side = OrderSide.buy →
      b'.buy_orders_ = b.buy_orders_ ∧
      (b'.sell_orders_.map Prod.fst).IsSuffix (b.sell_orders_.map Prod.fst) ∧
      (∀ j, j ∈ sideIds b'.sell_orders_ → j ∈ sideIds b.sell_orders_) ∧
      (∀ j, j ∉ sideIds b.sell_orders_ →
        lookupA b'.orders_by_id_ j = lookupA b.orders_by_id_ j) ∧
      (o'.filled_quantity < o'.quantity → b'.sell_orders_ = [] ∨
        ∃ p lvl rest2, b'.sell_orders_ = (p, lvl) :: rest2 ∧
          crosses true o' p = false) ∧
      (∀ e ∈ b'.sell_orders_, ∃ e₀ ∈ b.sell_orders_, e.1 = e₀.1 ∧
        e.2.orders.Sublist e₀.2.orders)) ∧
    (taker.side = OrderSide.sell →
      b'.sell_orders_ = b.sell_orders_ ∧
      (b'.buy_orders_.map Prod.fst).IsSuffix (b.buy_orders_.map Prod.fst) ∧
      (∀ j, j ∈ sideIds b'.buy_orders_ → j ∈ sideIds b.buy_orders_) ∧
      (∀ j, j ∉ sideIds b.buy_orders_ →
        lookupA b'.orders_by_id_ j = lookupA b.orders_by_id_ j) ∧
      (o'.filled_quantity < o'.quantity → b'.buy_orders_ = [] ∨
        ∃ p lvl rest2, b'.buy_orders_ = (p, lvl) :: rest2 ∧
          crosses false o' p = false) ∧
      (∀ e ∈ b'.buy_orders_, ∃ e₀ ∈ b.buy_orders_, e.1 = e₀.1 ∧
        e.2.orders.Sublist e₀.2.orders)) := by
  by_cases hside : taker.side = OrderSide.buy
  · rw [OrderBook.match_orders, if_pos hside] at h
    cases hml : matchLoop true b.symbol_ (b.sell_orders_.length + 2)
        b.sell_orders_
        ⟨taker, b.orders_by_id_, [], [], b.total_trades_,
          b.total_volume_⟩ with
    | none => rw [hml] at h; exact absurd h (by simp)
    | some r =>
      obtain ⟨opp', st⟩ := r
      rw [hml] at h
      simp only [Option.some.injEq, Prod.mk.injEq] at h
      obtain ⟨hb, ho, ht, he⟩ := h
      subst hb; subst ho; subst ht; subst he
      obtain ⟨⟨f, hf⟩, hsfx, hids, hstore, hkeys, hstop, hlvl, -⟩ :=
        matchLoop_spec true b.symbol_ _ _ _ _ _ hml
      refine ⟨⟨f, hf⟩, rfl, rfl, rfl, hkeys, fun _ => ?_, fun hs => ?_⟩
      · exact ⟨rfl, hsfx, hids, hstore, hstop, hlvl⟩
      · rw [hside] at hs
        exact absurd hs (by simp)
  · have hside' : taker.side = OrderSide.sell := by
      cases hs : taker.side
      · exact absurd hs hside
      · rfl
    rw [OrderBook.match_orders, if_neg hside] at h
    cases hml : matchLoop false b.symbol_ (b.buy_orders_.length + 2)
        b.buy_orders_
        ⟨taker, b.orders_by_id_, [], [], b.total_trades_,
          b.total_volume_⟩ with
    | none => rw [hml] at h; exact absurd h (by simp)
    | some r =>
      obtain ⟨opp', st⟩ := r
      rw [hml] at h
      simp only [Option.some.injEq, Prod.mk.injEq] at h
      obtain ⟨hb, ho, ht, he⟩ := h
      subst hb; subst ho; subst ht; subst he
      obtain ⟨⟨f, hf⟩, hsfx, hids, hstore, hkeys, hstop, hlvl, -⟩ :=
        matchLoop_spec false b.symbol_ _ _ _ _ _ hml
      refine ⟨⟨f, hf⟩, rfl, rfl, rfl, hkeys, fun hs => ?_, fun _ => ?_⟩
      · exact absurd hs hside
      · exact ⟨rfl, hsfx, hids, hstore, hstop, hlvl⟩

theorem process_market_order_inv (b : OrderBook) (o : Order)
    (b' : OrderBook) (o' : Order) (ev : List BEvent)
    (h : b.process_market_order o = some (b', o', ev)) :
    ∃ o₁ tr, b.match_orders o = some (b', o₁, tr, ev) ∧
      o' = (if o₁.filled_quantity < o₁.quantity
        then { o₁ with status := OrderStatus.rejected } else o₁) := by
  rw [OrderBook.process_market_order] at h
  cases hm : b.match_orders o with
  | none => rw [hm] at h; exact absurd h (by simp)
  | some r =>
    obtain ⟨b₂, o₂, tr₂, ev₂⟩ := r
    rw [hm] at h
    simp only [Option.some.injEq, Prod.mk.injEq] at h
    obtain ⟨h1, h2, h3⟩ := h
    subst h1; subst h3
    exact ⟨o₂, tr₂, rfl, h2.symm⟩

/-- **C3** (amended theorem).  For every market order: the returned trade
list is empty (the trades are local to `process_market_order`), the order
never rests in a price level, and its final status after `add_order`
returns is `Rejected` only when it got NO fill at all; a partial fill ends
`PARTIAL` (the final status recomputation overwrites the `Rejected` set by
`process_market_order`), and a full fill ends `Filled`. -/
theorem C3_market_amended (b : OrderBook) (o : Order) (b' : OrderBook)
    (o' : Order) (tr : List Trade) (ev : List BEvent)
    (htype : o.type = OrderType.market)
    (hfill : o.filled_quantity = 0)
    (hlv : idInLevels b o.id = false)
    (h : b.add_order o = some (b', o', tr, ev)) :
    tr = [] ∧ idInLevels b' o.id = false ∧ o'.quantity = o.quantity ∧
    (o'.filled_quantity = 0 → o.quantity ≠ 0 →
      o'.status = OrderStatus.rejected) ∧
    (0 < o'.filled_quantity → o'.filled_quantity < o'.quantity →
      o'.status = OrderStatus.partFilled) ∧
    (o'.filled_quantity = o'.quantity → o.quantity ≠ 0 →
      o'.status = OrderStatus.filled) := by
  rw [OrderBook.add_order] at h
  by_cases hval : o.quantity = 0 ∨ MAX_ORDER_QUANTITY < o.quantity ∨
      (o.type = OrderType.limit ∧ (o.price = 0 ∨ MAX_ORDER_PRICE < o.price))
  · rw [if_pos hval] at h
    simp only [Option.some.injEq, Prod.mk.injEq] at h
    obtain ⟨hb, ho, ht, he⟩ := h
    subst hb; subst ho; subst ht; subst he
    refine ⟨rfl, hlv, rfl, fun _ _ => rfl, ?_, ?_⟩
    · intro hpos _
      have hpos' : 0 < o.filled_quantity := hpos
      rw [hfill] at hpos'
      exact absurd hpos' (by omega)
    · intro heq hq
      have heq' : o.filled_quantity = o.quantity := heq
      rw [hfill] at heq'
      exact absurd heq'.symm hq
  · rw [if_neg hval] at h
    simp only [htype] at h
    cases hpm : OrderBook.process_market_order
        { b with orders_by_id_ := insertA b.orders_by_id_ o.id o,
                 total_orders_ := add64 b.total_orders_ 1 } o with
    | none => rw [hpm] at h; exact absurd h (by simp)
    | some r =>
      obtain ⟨b₂, o₂, ev₂⟩ := r
      rw [hpm] at h
      simp only [Option.map_some', Option.some.injEq, Prod.mk.injEq] at h
      obtain ⟨hb, ho, ht, he⟩ := h
      subst hb; subst ht; subst he
      obtain ⟨o₁, tr₁, hm, ho₂⟩ := process_market_order_inv _ _ _ _ _ hpm
      obtain ⟨⟨f, hf⟩, -, -, -, -, hbuy, hsell⟩ :=
        match_orders_spec _ _ _ _ _ _ hm
      have hblv : idInLevels b₂ o.id = false := by
        rw [idInLevels_eq_false_iff] at hlv ⊢
        cases hside : o.side with
        | buy =>
          obtain ⟨hb1, hs1, hs2, -, -, -⟩ := hbuy hside
          exact ⟨by rw [hb1]; exact hlv.1, fun hm' => hlv.2 (hs2 _ hm')⟩
        | sell =>
          obtain ⟨hb1, hs1, hs2, -, -, -⟩ := hsell hside
          exact ⟨fun hm' => hlv.1 (hs2 _ hm'), by rw [hb1]; exact hlv.2⟩
      have hq₁ : o₁.quantity = o.quantity := by rw [hf]; rfl
      have hq₂ : o₂.quantity = o.quantity := by
        rw [ho₂]
        split
        · exact hq₁
        · exact hq₁
      have hf₂ : o₂.filled_quantity = o₁.filled_quantity := by
        rw [ho₂]
        split
        · rfl
        · rfl
      subst ho
      by_cases hA : o₂.filled_quantity = o₂.quantity
      · rw [if_pos hA]
        refine ⟨rfl, hblv, hq₂, ?_, ?_, fun _ _ => rfl⟩
        · intro hzero hq
          have hzero' : o₂.filled_quantity = 0 := hzero
          exact absurd (show o.quantity = 0 by
            rw [← hq₂, ← hA]; exact hzero') hq
        · intro _ hlt
          have hlt' : o₂.filled_quantity < o₂.quantity := hlt
          exact absurd hlt' (by omega)
      · rw [if_neg hA]
        by_cases hB : 0 < o₂.filled_quantity
        · rw [if_pos hB]
          refine ⟨rfl, hblv, hq₂, ?_, fun _ _ => rfl, ?_⟩
          · intro hzero _
            have hzero' : o₂.filled_quantity = 0 := hzero
            exact absurd hzero' (by omega)
          · intro heq _
            have heq' : o₂.filled_quantity = o₂.quantity := heq
            exact absurd heq' hA
        · rw [if_neg hB]
          have hz : o₂.filled_quantity = 0 := by omega
          refine ⟨rfl, hblv, hq₂, ?_, ?_, ?_⟩
          · intro _ hq
            have hlt : o₁.filled_quantity < o₁.quantity := by
              rw [← hf₂, hz, hq₁]
              exact Nat.pos_of_ne_zero hq
            rw [ho₂, if_pos hlt]
          · intro hpos _
            exact absurd hpos hB
          · intro heq hq
            rw [heq] at hz
            exact absurd (hq₂ ▸ hz) hq

theorem C3_market_amended_witness :
    addTrades bookS1 oMarket5 = [] ∧
    idInLevels (addB bookS1 oMarket5) "M1" = false := by
  have h : bookS1.add_order oMarket5 = some (addB bookS1 oMarket5,
      addO bookS1 oMarket5, addTrades bookS1 oMarket5,
      addEvents bookS1 oMarket5) := by decide
  have hr := C3_market_amended bookS1 oMarket5 _ _ _ _ (by decide)
    (by decide) (by decide) h
  exact ⟨hr.1, hr.2.1⟩

/-- **C2** (amended theorem).  (a) A quantity/limit-price validation
failure marks the order `Rejected` and returns the book UNCHANGED with an
empty trade list and NO events.  (b) A Stop/StopLimit with no reference
price on the relevant side is marked `Rejected` with an empty trade list
and exactly one `Rejected` order-update event, but the order IS inserted
into `orders_by_id_` and `total_orders_` IS incremented (levels and trade
history unchanged). -/
theorem C2_reject_amended :
    (∀ (b : OrderBook) (o : Order),
      (o.quantity = 0 ∨ MAX_ORDER_QUANTITY < o.quantity ∨
        (o.type = OrderType.limit ∧
          (o.price = 0 ∨ MAX_ORDER_PRICE < o.price))) →
      b.add_order o
        = some (b, { o with status := OrderStatus.rejected }, [], [])) ∧
    (∀ (b : OrderBook) (o : Order) (b' : OrderBook) (o' : Order)
        (tr : List Trade) (ev : List BEvent),
      o.quantity ≠ 0 → ¬MAX_ORDER_QUANTITY < o.quantity →
      o.filled_quantity = 0 →
      (o.type = OrderType.stop ∨ o.type = OrderType.stopLimit) →
      (if o.side = OrderSide.buy then b.get_best_ask else b.get_best_bid)
        = 0 →
      b.add_order o = some (b', o', tr, ev) →
      o' = { o with status := OrderStatus.rejected } ∧ tr = [] ∧
      ev = [BEvent.orderUpdate { o with status := OrderStatus.rejected }] ∧
      b'.buy_orders_ = b.buy_orders_ ∧ b'.sell_orders_ = b.sell_orders_ ∧
      b'.orders_by_id_ = insertA b.orders_by_id_ o.id
        { o with status := OrderStatus.rejected } ∧
      b'.total_orders_ = add64 b.total_orders_ 1 ∧
      b'.trade_history_ = b.trade_history_) := by
  constructor
  · intro b o hval
    rw [OrderBook.add_order, if_pos hval]
  · intro b o b' o' tr ev hq0 hqmax hfill htype href h
    have hval : ¬(o.quantity = 0 ∨ MAX_ORDER_QUANTITY < o.quantity ∨
        (o.type = OrderType.limit ∧
          (o.price = 0 ∨ MAX_ORDER_PRICE < o.price))) := by
      rcases htype with ht | ht <;> simp [ht, hq0, hqmax]
    rw [OrderBook.add_order, if_neg hval] at h
    have hone : ¬({ o with status := OrderStatus.rejected }.filled_quantity
        = { o with status := OrderStatus.rejected }.quantity) := by
      show ¬(o.filled_quantity = o.quantity)
      rw [hfill]
      exact fun hc => hq0 hc.symm
    have htwo : ¬(0 < { o with
        status := OrderStatus.rejected }.filled_quantity) := by
      show ¬(0 < o.filled_quantity)
      rw [hfill]
      exact by omega
    rcases htype with ht | ht
    · simp only [ht] at h
      rw [OrderBook.process_stop_order] at h
      have href₁ : (if o.side = OrderSide.buy then
          OrderBook.get_best_ask
            { b with orders_by_id_ := insertA b.orders_by_id_ o.id o,
                     total_orders_ := add64 b.total_orders_ 1 }
        else OrderBook.get_best_bid
            { b with orders_by_id_ := insertA b.orders_by_id_ o.id o,
                     total_orders_ := add64 b.total_orders_ 1 }) = 0 := href
      rw [if_pos href₁] at h
      simp only [Option.map_some', Option.some.injEq, Prod.mk.injEq] at h
      obtain ⟨hb, ho, ht2, he⟩ := h
      rw [if_neg hone, if_neg htwo] at ho hb he
      subst hb; subst ho; subst ht2; subst he
      refine ⟨rfl, rfl, by simp, rfl, rfl, ?_, rfl, by simp⟩
      exact insertA_insertA _ _ _ _
    · simp only [ht] at h
      rw [OrderBook.process_stop_limit_order] at h
      have href₁ : (if o.side = OrderSide.buy then
          OrderBook.get_best_ask
            { b with orders_by_id_ := insertA b.orders_by_id_ o.id o,
                     total_orders_ := add64 b.total_orders_ 1 }
        else OrderBook.get_best_bid
            { b with orders_by_id_ := insertA b.orders_by_id_ o.id o,
                     total_orders_ := add64 b.total_orders_ 1 }) = 0 := href
      rw [if_pos href₁] at h
      simp only [Option.map_some', Option.some.injEq, Prod.mk.injEq] at h
      obtain ⟨hb, ho, ht2, he⟩ := h
      rw [if_neg hone, if_neg htwo] at ho hb he
      subst hb; subst ho; subst ht2; subst he
      refine ⟨rfl, rfl, by simp, rfl, rfl, ?_, rfl, by simp⟩
      exact insertA_insertA _ _ _ _

theorem C2_reject_amended_witness :
    (OrderBook.empty "X").add_order oZeroQty = some (OrderBook.empty "X",
      { oZeroQty with status := OrderStatus.rejected }, [], []) ∧
    addEvents (OrderBook.empty "X") oStopNoRef =
      [BEvent.orderUpdate
        { oStopNoRef with status := OrderStatus.rejected }] := by
  constructor
  · exact C2_reject_amended.1 (OrderBook.empty "X") oZeroQty (by decide)
  · have h : (OrderBook.empty "X").add_order oStopNoRef =
        some (addB (OrderBook.empty "X") oStopNoRef,
          addO (OrderBook.empty "X") oStopNoRef,
          addTrades (OrderBook.empty "X") oStopNoRef,
          addEvents (OrderBook.empty "X") oStopNoRef) := by decide
    have hr := C2_reject_amended.2 (OrderBook.empty "X") oStopNoRef _ _ _ _
      (by decide) (by decide) (by decide) (Or.inl rfl) (by decide) h
    exact hr.2.2.1

/-- **C8** (amended theorem).  `OrderBook::clear` empties both level maps,
the id map and all three counters but keeps the book's trade history;
`MatchingEngine::clear` empties the books map and the id→symbol map but
keeps the engine statistics and the engine trade history. -/
theorem C8_clear_amended :
    (∀ b : OrderBook, (OrderBook.clear b).buy_orders_ = [] ∧
      (OrderBook.clear b).sell_orders_ = [] ∧
      (OrderBook.clear b).orders_by_id_ = [] ∧
      (OrderBook.clear b).total_orders_ = 0 ∧
      (OrderBook.clear b).total_trades_ = 0 ∧
      (OrderBook.clear b).total_volume_ = 0 ∧
      (OrderBook.clear b).trade_history_ = b.trade_history_) ∧
    (∀ e : MatchingEngine, (MatchingEngine.clear e).order_books_ = [] ∧
      (MatchingEngine.clear e).order_id_to_symbol_ = [] ∧
      (MatchingEngine.clear e).stats_ = e.stats_ ∧
      (MatchingEngine.clear e).trade_history_ = e.trade_history_) :=
  ⟨fun _ => ⟨rfl, rfl, rfl, rfl, rfl, rfl, rfl⟩,
    fun _ => ⟨rfl, rfl, rfl, rfl⟩⟩

theorem findLevel_some_mem {s : Side} {p : Nat} {lvl : Level}
    (h : findLevel s p = some lvl) : (p, lvl) ∈ s := by
  induction s with
  | nil => simp [findLevel] at h
  | cons e rest ih =>
    obtain ⟨p₀, lvl₀⟩ := e
    by_cases h₀ : p₀ = p
    · subst h₀
      rw [findLevel, if_pos rfl] at h
      obtain rfl := Option.some.inj h
      exact List.mem_cons_self _ _
    · rw [findLevel, if_neg h₀] at h
      exact List.mem_cons_of_mem _ (ih h)

theorem mem_eraseLevel {s : Side} {p : Nat} {e : Nat × Level}
    (hkeys : (s.map Prod.fst).Nodup) (h : e ∈ eraseLevel s p) :
    e ∈ s ∧ e.1 ≠ p := by
  induction s with
  | nil => simp [eraseLevel] at h
  | cons e₀ rest ih =>
    obtain ⟨p₀, lvl₀⟩ := e₀
    simp only [List.map_cons, List.nodup_cons] at hkeys
    by_cases h₀ : p₀ = p
    · subst h₀
      rw [eraseLevel, if_pos rfl] at h
      refine ⟨List.mem_cons_of_mem _ h, fun hp => ?_⟩
      exact hkeys.1 (hp ▸ List.mem_map_of_mem Prod.fst h)
    · rw [eraseLevel, if_neg h₀] at h
      rcases List.mem_cons.1 h with h | h
      · subst h
        exact ⟨List.mem_cons_self _ _, h₀⟩
      · obtain ⟨h1, h2⟩ := ih hkeys.2 h
        exact ⟨List.mem_cons_of_mem _ h1, h2⟩

theorem keys_nodup_unique {s : Side} {p : Nat} {x y : Level}
    (hkeys : (s.map Prod.fst).Nodup) (hx : (p, x) ∈ s) (hy : (p, y) ∈ s) :
    x = y := by
  induction s with
  | nil => simp at hx
  | cons e rest ih =>
    obtain ⟨p₀, lvl₀⟩ := e
    simp only [List.map_cons, List.nodup_cons] at hkeys
    rcases List.mem_cons.1 hx with hx' | hx'
    · injection hx' with hp hl
      rcases List.mem_cons.1 hy with hy' | hy'
      · injection hy' with hp2 hl2
        exact hl.trans hl2.symm
      · exfalso
        exact hkeys.1 (hp ▸ List.mem_map_of_mem Prod.fst hy')
    · rcases List.mem_cons.1 hy with hy' | hy'
      · exfalso
        injection hy' with hp _
        exact hkeys.1 (hp ▸ List.mem_map_of_mem Prod.fst hx')
      · exact ih hkeys.2 hx' hy'

theorem removeFromSide_not_mem (s : Side) (p : Nat) (i : String) (rem : Nat)
    (hkeys : (s.map Prod.fst).Nodup)
    (hnd : ∀ e ∈ s, e.2.orders.Nodup)
    (honly : ∀ e ∈ s, i ∈ e.2.orders → e.1 = p) :
    ∀ e ∈ removeFromSide s p i rem, i ∉ e.2.orders := by
  intro e he hi
  rw [removeFromSide] at he
  split at he
  next hfl =>
    exact (findLevel_eq_none_iff s p).1 hfl e he (honly e he hi)
  next lvl hfl =>
    have hlvlmem : (p, lvl) ∈ s := findLevel_some_mem hfl
    split at he
    next hmem =>
      split at he
      next hemp =>
        obtain ⟨he1, he2⟩ := mem_eraseLevel hkeys he
        exact he2 (honly e he1 hi)
      next hemp =>
        rcases List.mem_map.1 he with ⟨e₀, he₀, heq⟩
        by_cases hp : e₀.1 = p
        · rw [if_pos hp] at heq
          subst heq
          exact ((hnd (p, lvl) hlvlmem).not_mem_erase) hi
        · rw [if_neg hp] at heq
          subst heq
          exact hp (honly e₀ he₀ hi)
    next hmem =>
      have hep : e.1 = p := honly e he hi
      have he2 : e.2 = lvl := by
        refine keys_nodup_unique hkeys ?_ hlvlmem
        rw [← hep]
        exact he
      rw [he2] at hi
      exact hmem hi

theorem cancel_order_true_shape (b : OrderBook) (i : String) (o : Order)
    (hlk : lookupA b.orders_by_id_ i = some o)
    (hterm : ¬(o.status = OrderStatus.filled ∨
      o.status = OrderStatus.cancelled)) :
    b.cancel_order i =
      (eraseStoreOf (if o.type = OrderType.limit
          then b.remove_order_from_level
            { o with status := OrderStatus.cancelled }
          else b) i, true,
        [BEvent.orderUpdate { o with status := OrderStatus.cancelled }]) := by
  simp only [OrderBook.cancel_order, hlk, if_neg hterm, eraseStoreOf]

/-- **C5** (amended theorem).  `cancel_order(order_id)` returns true iff
the order exists in `orders_by_id_` and its status is neither `Filled` nor
`Cancelled` (a `Rejected` order still present IS cancellable); when it
returns false the book is unchanged; when it returns true the order is
erased from `orders_by_id_`, exactly one `Cancelled` order-update is
emitted, and a resting limit order is removed from its price level (a
non-limit order leaves the levels untouched). -/
theorem C5_cancel_amended (b : OrderBook) (i : String) :
    ((b.cancel_order i).2.1 = true ↔
      ∃ o, b.get_order i = some o ∧ o.status ≠ OrderStatus.filled ∧
        o.status ≠ OrderStatus.cancelled) ∧
    ((b.cancel_order i).2.1 = false → (b.cancel_order i).1 = b) ∧
    (∀ o, b.get_order i = some o → o.id = i →
      o.status ≠ OrderStatus.filled →
      o.status ≠ OrderStatus.cancelled →
      ((b.orders_by_id_.map Prod.fst).Nodup →
        (b.cancel_order i).1.get_order i = none) ∧
      (b.cancel_order i).2.2 =
        [BEvent.orderUpdate { o with status := OrderStatus.cancelled }] ∧
      (o.type = OrderType.limit → TidyLevels b →
        restsOnlyAt b i o.side o.price →
        idInLevels (b.cancel_order i).1 i = false) ∧
      (o.type ≠ OrderType.limit →
        idInLevels (b.cancel_order i).1 i = idInLevels b i)) := by
  cases hlk : lookupA b.orders_by_id_ i with
  | none =>
    have hres : b.cancel_order i = (b, false, []) := by
      simp only [OrderBook.cancel_order, hlk]
    rw [hres]
    refine ⟨⟨fun h => absurd h (by simp), ?_⟩, fun _ => rfl, ?_⟩
    · rintro ⟨o, ho, -⟩
      rw [OrderBook.get_order, hlk] at ho
      exact absurd ho (by simp)
    · intro o ho _
      rw [OrderBook.get_order, hlk] at ho
      exact absurd ho (by simp)
  | some o =>
    by_cases hterm : o.status = OrderStatus.filled ∨
        o.status = OrderStatus.cancelled
    · have hres : b.cancel_order i = (b, false, []) := by
        simp only [OrderBook.cancel_order, hlk, if_pos hterm]
      rw [hres]
      refine ⟨⟨fun h => absurd h (by simp), ?_⟩, fun _ => rfl, ?_⟩
      · rintro ⟨o', ho', hf, hc⟩
        rw [OrderBook.get_order, hlk] at ho'
        obtain rfl := Option.some.inj ho'
        rcases hterm with ht | ht
        · exact absurd ht hf
        · exact absurd ht hc
      · intro o' ho' _ hf hc
        rw [OrderBook.get_order, hlk] at ho'
        obtain rfl := Option.some.inj ho'
        rcases hterm with ht | ht
        · exact absurd ht hf
        · exact absurd ht hc
    · rw [cancel_order_true_shape b i o hlk hterm]
      push_neg at hterm
      refine ⟨⟨fun _ => ⟨o, by rw [OrderBook.get_order, hlk], hterm.1,
          hterm.2⟩, fun _ => rfl⟩, fun h => absurd h (by simp), ?_⟩
      intro o' ho' hoid hf hc
      rw [OrderBook.get_order, hlk] at ho'
      obtain rfl := Option.some.inj ho'
      subst hoid
      have hstore : (if o.type = OrderType.limit
          then b.remove_order_from_level
            { o with status := OrderStatus.cancelled }
          else b).orders_by_id_ = b.orders_by_id_ := by
        split
        · rw [OrderBook.remove_order_from_level]
          split <;> rfl
        · rfl
      refine ⟨?_, rfl, ?_, ?_⟩
      · intro hnd
        show lookupA (eraseA (if o.type = OrderType.limit
            then b.remove_order_from_level
              { o with status := OrderStatus.cancelled }
            else b).orders_by_id_ o.id) o.id = none
        rw [hstore]
        exact lookupA_eraseA_self _ _ hnd
      · intro hlim htidy honly
        rw [if_pos hlim, idInLevels_eq_false_iff]
        simp only [eraseStoreOf]
        by_cases hside : o.side = OrderSide.buy
        · have hsd : ({ o with status := OrderStatus.cancelled } : Order).side
              = OrderSide.buy := hside
          rw [OrderBook.remove_order_from_level, if_pos hsd]
          constructor
          · intro hm
            rw [mem_sideIds_iff] at hm
            obtain ⟨e, he, hie⟩ := hm
            exact removeFromSide_not_mem b.buy_orders_ o.price o.id _
              htidy.1 htidy.2.2.1
              (fun e' he' hie' => (honly.1 e' he' hie').2) e he hie
          · intro hm
            rw [mem_sideIds_iff] at hm
            obtain ⟨e, he, hie⟩ := hm
            have hbs := (honly.2 e he hie).1
            rw [hside] at hbs
            exact absurd hbs (by simp)
        · have hsd : ¬(({ o with status := OrderStatus.cancelled } :
              Order).side = OrderSide.buy) := hside
          rw [OrderBook.remove_order_from_level, if_neg hsd]
          constructor
          · intro hm
            rw [mem_sideIds_iff] at hm
            obtain ⟨e, he, hie⟩ := hm
            exact hside (honly.1 e he hie).1
          · intro hm
            rw [mem_sideIds_iff] at hm
            obtain ⟨e, he, hie⟩ := hm
            exact removeFromSide_not_mem b.sell_orders_ o.price o.id _
              htidy.2.1 htidy.2.2.2
              (fun e' he' hie' => (honly.2 e' he' hie').2) e he hie
      · intro hnlim
        rw [if_neg hnlim]
        rfl

theorem C5_cancel_amended_witness :
    (bookB5.cancel_order "B5").2.1 = true ∧
    (bookB5.cancel_order "B5").1.get_order "B5" = none ∧
    idInLevels (bookB5.cancel_order "B5").1 "B5" = false := by
  have hr := C5_cancel_amended bookB5 "B5"
  have hget : bookB5.get_order "B5" = some oBuy5 := by decide
  have h3 := hr.2.2 oBuy5 hget (by decide) (by decide) (by decide)
  exact ⟨hr.1.2 ⟨oBuy5, hget, by decide, by decide⟩,
    h3.1 (by decide), h3.2.2.1 (by decide)
      (by unfold TidyLevels; decide) (by unfold restsOnlyAt; decide)⟩

theorem mem_upsertLevel_cases (bf : Nat → Nat → Bool) (p : Nat)
    (f : Level → Level) (s : Side) (e : Nat × Level)
    (h : e ∈ upsertLevel bf p f s) :
    e ∈ s ∨ (e.1 = p ∧ (e.2 = f ⟨0, [], 0⟩ ∨
      ∃ lvl, (p, lvl) ∈ s ∧ e.2 = f lvl)) := by
  induction s with
  | nil =>
    simp only [upsertLevel, List.mem_singleton] at h
    subst h
    exact Or.inr ⟨rfl, Or.inl rfl⟩
  | cons e₀ rest ih =>
    obtain ⟨p₀, lvl₀⟩ := e₀
    by_cases h₀ : p₀ = p
    · subst h₀
      rw [upsertLevel, if_pos rfl] at h
      rcases List.mem_cons.1 h with h | h
      · subst h
        exact Or.inr ⟨rfl, Or.inr ⟨lvl₀, List.mem_cons_self _ _, rfl⟩⟩
      · exact Or.inl (List.mem_cons_of_mem _ h)
    · rw [upsertLevel, if_neg h₀] at h
      by_cases h₁ : bf p p₀
      · rw [if_pos h₁] at h
        rcases List.mem_cons.1 h with h | h
        · subst h
          exact Or.inr ⟨rfl, Or.inl rfl⟩
        · exact Or.inl h
      · rw [if_neg h₁] at h
        rcases List.mem_cons.1 h with h | h
        · subst h
          exact Or.inl (List.mem_cons_self _ _)
        · rcases ih h with h' | ⟨hp, hbody⟩
          · exact Or.inl (List.mem_cons_of_mem _ h')
          · refine Or.inr ⟨hp, ?_⟩
            rcases hbody with hb | ⟨lvl, hl, hb⟩
            · exact Or.inl hb
            · exact Or.inr ⟨lvl, List.mem_cons_of_mem _ hl, hb⟩

theorem pairwise_fst_nodup {lt : Nat → Nat → Prop} {s : Side}
    (hirr : ∀ a, ¬lt a a)
    (h : s.Pairwise (fun a b => lt a.1 b.1)) : (s.map Prod.fst).Nodup := by
  have h' : (s.map Prod.fst).Pairwise lt := List.pairwise_map.2 h
  refine h'.imp ?_
  intro a b hab
  intro heq
  rw [heq] at hab
  exact hirr b hab

theorem insertA_map_fst_of_not_mem {β : Type} (l : List (String × β))
    (k : String) (v : β) (h : k ∉ l.map Prod.fst) :
    (insertA l k v).map Prod.fst = l.map Prod.fst ++ [k] := by
  induction l with
  | nil => simp [insertA]
  | cons e rest ih =>
    obtain ⟨k₀, v₀⟩ := e
    simp only [List.map_cons, List.mem_cons] at h
    push_neg at h
    have hne : k₀ ≠ k := fun hc => h.1 hc.symm
    simp only [insertA, if_neg hne, List.map_cons, ih h.2,
      List.cons_append]

/-- Resting a fresh order id `i` on a sorted side and then cancelling it
leaves `i` in no level of that side. -/
theorem upsert_remove_not_mem (lt : Nat → Nat → Prop)
    (bf : Nat → Nat → Bool)
    (hbf : ∀ a b, bf a b = true → lt a b)
    (htot : ∀ a b, a ≠ b → bf a b = false → lt b a)
    (htrans : ∀ {a b c}, lt a b → lt b c → lt a c)
    (hirr : ∀ a, ¬lt a a)
    (s : Side) (p : Nat) (i : String) (fp ft : Level → Nat) (rem : Nat)
    (hsort : s.Pairwise (fun a b => lt a.1 b.1))
    (hnd : ∀ e ∈ s, e.2.orders.Nodup)
    (hfresh : ∀ e ∈ s, i ∉ e.2.orders) :
    ∀ e ∈ removeFromSide
      (upsertLevel bf p (fun lvl =>
        { lvl with
          price := fp lvl
          orders := lvl.orders ++ [i]
          total_quantity := ft lvl }) s)
      p i rem, i ∉ e.2.orders := by
  apply removeFromSide_not_mem
  · exact pairwise_fst_nodup hirr
      (upsertLevel_pairwise lt bf hbf htot htrans p _ s hsort)
  · intro e he
    rcases mem_upsertLevel_cases _ _ _ _ _ he with he' | ⟨hp, hbody⟩
    · exact hnd e he'
    · rcases hbody with hb | ⟨lvl, hl, hb⟩
      · rw [hb]
        simp
      · rw [hb]
        show (lvl.orders ++ [i]).Nodup
        rw [List.nodup_append]
        refine ⟨hnd (p, lvl) hl, List.nodup_singleton i, ?_⟩
        intro a ha hb'
        rw [List.mem_singleton.1 hb'] at ha
        exact hfresh (p, lvl) hl ha
  · intro e he hie
    rcases mem_upsertLevel_cases _ _ _ _ _ he with he' | ⟨hp, _⟩
    · exact absurd hie (hfresh e he')
    · exact hp

/-- Specialisation of `upsert_remove_not_mem` to the bid side with the
level-update function `add_order_to_level` actually uses. -/
theorem bid_rest_cancel_not_mem (s : Side) (p : Nat) (om : Order)
    (rem : Nat) (hsort : SortedBids s)
    (hnd : ∀ e ∈ s, e.2.orders.Nodup)
    (hfresh : ∀ e ∈ s, om.id ∉ e.2.orders) :
    ∀ e ∈ removeFromSide (upsertLevel bidBefore p (restLevelF om) s) p
      om.id rem, om.id ∉ e.2.orders :=
  upsert_remove_not_mem (fun a b => b < a) bidBefore
    (fun _ _ h => of_decide_eq_true h)
    (fun _ _ hne h => Nat.lt_of_le_of_ne
      (Nat.le_of_not_lt (of_decide_eq_false h)) hne)
    (fun h1 h2 => Nat.lt_trans h2 h1)
    (fun a => Nat.lt_irrefl a)
    s p om.id
    (fun lvl => if lvl.price = 0 then om.price else lvl.price)
    (fun lvl => add64 lvl.total_quantity
      (sub64 om.quantity om.filled_quantity))
    rem hsort hnd hfresh

/-- Specialisation of `upsert_remove_not_mem` to the ask side. -/
theorem ask_rest_cancel_not_mem (s : Side) (p : Nat) (om : Order)
    (rem : Nat) (hsort : SortedAsks s)
    (hnd : ∀ e ∈ s, e.2.orders.Nodup)
    (hfresh : ∀ e ∈ s, om.id ∉ e.2.orders) :
    ∀ e ∈ removeFromSide (upsertLevel askBefore p (restLevelF om) s) p
      om.id rem, om.id ∉ e.2.orders :=
  upsert_remove_not_mem (fun a b => a < b) askBefore
    (fun _ _ h => of_decide_eq_true h)
    (fun _ _ hne h => Nat.lt_of_le_of_ne
      (Nat.le_of_not_lt (of_decide_eq_false h)) hne.symm)
    (fun h1 h2 => Nat.lt_trans h1 h2)
    (fun a => Nat.lt_irrefl a)
    s p om.id
    (fun lvl => if lvl.price = 0 then om.price else lvl.price)
    (fun lvl => add64 lvl.total_quantity
      (sub64 om.quantity om.filled_quantity))
    rem hsort hnd hfresh

/-- **C1** (amended theorem).  `OrderBook::add_order` itself ignores tif,
so the IOC handling lives in the HTTP layer: after `add_order` plus the
controller's conditional cancel (the per-book effect `bookIOCStep`), a
valid fresh limit order rests in no price level, and whenever any quantity
was left unfilled by the match pass the order is gone from `orders_by_id_`
as well. -/
theorem C1_ioc_amended (b : OrderBook) (o : Order) (b₂ : OrderBook)
    (o' : Order)
    (htype : o.type = OrderType.limit)
    (hq0 : o.quantity ≠ 0) (hqmax : ¬MAX_ORDER_QUANTITY < o.quantity)
    (hp0 : o.price ≠ 0) (hpmax : ¬MAX_ORDER_PRICE < o.price)
    (hfill : o.filled_quantity = 0) (hstatus : o.status = OrderStatus.new)
    (hfresh : lookupA b.orders_by_id_ o.id = none)
    (hflv : idInLevels b o.id = false)
    (hnd : (b.orders_by_id_.map Prod.fst).Nodup)
    (hsb : SortedBids b.buy_orders_) (hsa : SortedAsks b.sell_orders_)
    (htidy : TidyLevels b)
    (h : bookIOCStep b o = some (b₂, o')) :
    idInLevels b₂ o.id = false ∧
    (o'.filled_quantity < o'.quantity → b₂.get_order o.id = none) := by
  rw [bookIOCStep] at h
  cases hadd : b.add_order o with
  | none => rw [hadd] at h; exact absurd h (by simp)
  | some r4 =>
    obtain ⟨b₁, oA, tr, ev⟩ := r4
    rw [hadd] at h
    simp only [Option.map_some', Option.some.injEq, Prod.mk.injEq] at h
    obtain ⟨hb₂, ho'⟩ := h
    subst hb₂
    subst ho'
    have hval : ¬(o.quantity = 0 ∨ MAX_ORDER_QUANTITY < o.quantity ∨
        (o.type = OrderType.limit ∧
          (o.price = 0 ∨ MAX_ORDER_PRICE < o.price))) := by
      simp [hq0, hqmax, hp0, hpmax]
    rw [OrderBook.add_order, if_neg hval] at hadd
    simp only [htype] at hadd
    cases hm : OrderBook.match_orders
        { b with orders_by_id_ := insertA b.orders_by_id_ o.id o,
                 total_orders_ := add64 b.total_orders_ 1 } o with
    | none => rw [hm] at hadd; exact absurd hadd (by simp)
    | some rm =>
      obtain ⟨bm, om, trm, evm⟩ := rm
      rw [hm] at hadd
      simp only [Option.map_some', Option.some.injEq, Prod.mk.injEq] at hadd
      obtain ⟨⟨f, hf⟩, -, -, -, hkeys, hbuy, hsell⟩ :=
        match_orders_spec _ _ _ _ _ _ hm
      rw [Order.withFilled] at hf
      subst hf
      dsimp only at hadd
      -- key store facts
      have hmemid : o.id ∈ bm.orders_by_id_.map Prod.fst := by
        rw [hkeys]
        exact mem_of_lookupA_some (lookupA_insertA_self b.orders_by_id_ o.id o)
      have hndm : (bm.orders_by_id_.map Prod.fst).Nodup := by
        rw [hkeys]
        show ((insertA b.orders_by_id_ o.id o).map Prod.fst).Nodup
        rw [insertA_map_fst_of_not_mem _ _ _
          ((lookupA_eq_none_iff _ _).1 hfresh)]
        simp only [List.nodup_append, List.nodup_singleton]
        exact ⟨hnd, trivial, by
          intro a ha hb'
          rw [List.mem_singleton.1 hb'] at ha
          exact (lookupA_eq_none_iff _ _).1 hfresh ha⟩
      rw [idInLevels_eq_false_iff] at hflv
      have hbmfresh : o.id ∉ sideIds bm.buy_orders_ ∧
          o.id ∉ sideIds bm.sell_orders_ := by
        by_cases hsideb : o.side = OrderSide.buy
        · obtain ⟨hbq, -, -, -, -, hlv⟩ := hbuy hsideb
          refine ⟨?_, ?_⟩
          · rw [hbq]
            exact hflv.1
          · intro hmem
            rw [mem_sideIds_iff] at hmem
            obtain ⟨e, he, hie⟩ := hmem
            obtain ⟨e₀, he₀, -, hsub⟩ := hlv e he
            exact hflv.2 ((mem_sideIds_iff _ _).2 ⟨e₀, he₀, hsub.subset hie⟩)
        · have hsides : o.side = OrderSide.sell := by
            cases hs : o.side
            · exact absurd hs hsideb
            · rfl
          obtain ⟨hsq, -, -, -, -, hlv⟩ := hsell hsides
          refine ⟨?_, ?_⟩
          · intro hmem
            rw [mem_sideIds_iff] at hmem
            obtain ⟨e, he, hie⟩ := hmem
            obtain ⟨e₀, he₀, -, hsub⟩ := hlv e he
            exact hflv.1 ((mem_sideIds_iff _ _).2 ⟨e₀, he₀, hsub.subset hie⟩)
          · rw [hsq]
            exact hflv.2
      by_cases hrest : f < o.quantity
      · rw [if_pos hrest] at hadd
        dsimp only at hadd
        obtain ⟨hb₁, hoA, -, -⟩ := hadd
        rw [hoA] at hb₁
        have hne : ¬(f = o.quantity) := Nat.ne_of_lt hrest
        rw [if_neg hne] at hoA
        have haf : oA.filled_quantity = f := by
          rw [← hoA]; split <;> rfl
        have haq : oA.quantity = o.quantity := by
          rw [← hoA]; split <;> rfl
        have haid : oA.id = o.id := by
          rw [← hoA]; split <;> rfl
        have haprice : oA.price = o.price := by
          rw [← hoA]; split <;> rfl
        have haside : oA.side = o.side := by
          rw [← hoA]; split <;> rfl
        have hatype2 : oA.type = OrderType.limit := by
          rw [← hoA]
          split
          · exact htype
          · exact htype
        have hterm : ¬(oA.status = OrderStatus.filled ∨
            oA.status = OrderStatus.cancelled) := by
          rw [← hoA]
          split
          · simp
          · show ¬(o.status = OrderStatus.filled ∨
              o.status = OrderStatus.cancelled)
            rw [hstatus]
            simp
        have hcond : oA.filled_quantity < oA.quantity := by
          rw [haf, haq]
          exact hrest
        rw [if_pos hcond]
        have hatl_store : (OrderBook.add_order_to_level bm
            { o with filled_quantity := f }).orders_by_id_ =
            bm.orders_by_id_ := by
          rw [OrderBook.add_order_to_level]
          split <;> rfl
        have hb₁store : b₁.orders_by_id_ =
            insertA bm.orders_by_id_ o.id oA := by
          rw [← hb₁]
          show insertA (OrderBook.add_order_to_level bm
            { o with filled_quantity := f }).orders_by_id_ o.id oA =
            insertA bm.orders_by_id_ o.id oA
          rw [hatl_store]
        have hb₁nd : (b₁.orders_by_id_.map Prod.fst).Nodup := by
          rw [hb₁store, insertA_map_fst_of_mem _ _ _ hmemid]
          exact hndm
        have hlkb : lookupA b₁.orders_by_id_ o.id = some oA := by
          rw [hb₁store]
          exact lookupA_insertA_self _ _ _
        have hshape := cancel_order_true_shape b₁ o.id oA hlkb hterm
        rw [if_pos hatype2] at hshape
        have hcb1 : (b₁.cancel_order o.id).1 =
            eraseStoreOf (b₁.remove_order_from_level
              { oA with status := OrderStatus.cancelled }) o.id := by
          rw [hshape]
        rw [hcb1]
        have hrmst : (b₁.remove_order_from_level
            { oA with status := OrderStatus.cancelled }).orders_by_id_ =
            b₁.orders_by_id_ := by
          rw [OrderBook.remove_order_from_level]
          split <;> rfl
        refine ⟨?_, fun _ => ?_⟩
        · by_cases hsideb : o.side = OrderSide.buy
          · have homfside : ({ o with filled_quantity := f } :
                Order).side = OrderSide.buy := hsideb
            have hbmbuy : bm.buy_orders_ = b.buy_orders_ :=
              (hbuy hsideb).1
            have hb₁buy : b₁.buy_orders_ = upsertLevel bidBefore o.price
                (restLevelF { o with filled_quantity := f })
                b.buy_orders_ := by
              rw [← hb₁]
              show (OrderBook.add_order_to_level bm
                { o with filled_quantity := f }).buy_orders_ = _
              rw [OrderBook.add_order_to_level, if_pos homfside]
              show upsertLevel bidBefore o.price
                (restLevelF { o with filled_quantity := f })
                bm.buy_orders_ = _
              rw [hbmbuy]
            have hCside : ({ oA with status := OrderStatus.cancelled } :
                Order).side = OrderSide.buy := haside.trans hsideb
            have hrm : b₁.remove_order_from_level
                { oA with status := OrderStatus.cancelled } =
                { b₁ with
                  buy_orders_ := removeFromSide b₁.buy_orders_
                    ({ oA with status := OrderStatus.cancelled } :
                        Order).price
                    ({ oA with status := OrderStatus.cancelled } :
                        Order).id
                    (sub64 ({ oA with status := OrderStatus.cancelled } :
                        Order).quantity
                      ({ oA with status := OrderStatus.cancelled } :
                          Order).filled_quantity) } := by
              rw [OrderBook.remove_order_from_level, if_pos hCside]
            rw [idInLevels_eq_false_iff]
            constructor
            · intro hm
              have hm' : o.id ∈ sideIds (removeFromSide b₁.buy_orders_
                  oA.price oA.id
                  (sub64 oA.quantity oA.filled_quantity)) := by
                rw [hrm] at hm
                exact hm
              rw [haprice, haid, haq, haf, hb₁buy] at hm'
              rw [mem_sideIds_iff] at hm'
              obtain ⟨e, he, hie⟩ := hm'
              exact bid_rest_cancel_not_mem b.buy_orders_ o.price
                { o with filled_quantity := f } (sub64 o.quantity f)
                hsb htidy.2.2.1
                (fun e' he' hie' =>
                  hflv.1 ((mem_sideIds_iff _ _).2 ⟨e', he', hie'⟩))
                e he hie
            · intro hm
              have hm' : o.id ∈ sideIds b₁.sell_orders_ := by
                rw [hrm] at hm
                exact hm
              have hb₁sell : b₁.sell_orders_ = bm.sell_orders_ := by
                rw [← hb₁]
                show (OrderBook.add_order_to_level bm
                  { o with filled_quantity := f }).sell_orders_ = _
                rw [OrderBook.add_order_to_level, if_pos homfside]
              rw [hb₁sell] at hm'
              exact hbmfresh.2 hm'
          · have hsides : o.side = OrderSide.sell := by
              cases hs : o.side
              · exact absurd hs hsideb
              · rfl
            have homfside : ¬(({ o with filled_quantity := f } :
                Order).side = OrderSide.buy) := hsideb
            have hbmsell : bm.sell_orders_ = b.sell_orders_ :=
              (hsell hsides).1
            have hb₁sell : b₁.sell_orders_ = upsertLevel askBefore o.price
                (restLevelF { o with filled_quantity := f })
                b.sell_orders_ := by
              rw [← hb₁]
              show (OrderBook.add_order_to_level bm
                { o with filled_quantity := f }).sell_orders_ = _
              rw [OrderBook.add_order_to_level, if_neg homfside]
              show upsertLevel askBefore o.price
                (restLevelF { o with filled_quantity := f })
                bm.sell_orders_ = _
              rw [hbmsell]
            have hCside : ¬(({ oA with status := OrderStatus.cancelled } :
                Order).side = OrderSide.buy) := by
              show ¬(oA.side = OrderSide.buy)
              rw [haside]
              exact hsideb
            have hrm : b₁.remove_order_from_level
                { oA with status := OrderStatus.cancelled } =
                { b₁ with
                  sell_orders_ := removeFromSide b₁.sell_orders_
                    ({ oA with status := OrderStatus.cancelled } :
                        Order).price
                    ({ oA with status := OrderStatus.cancelled } :
                        Order).id
                    (sub64 ({ oA with status := OrderStatus.cancelled } :
                        Order).quantity
                      ({ oA with status := OrderStatus.cancelled } :
                          Order).filled_quantity) } := by
              rw [OrderBook.remove_order_from_level, if_neg hCside]
            rw [idInLevels_eq_false_iff]
            constructor
            · intro hm
              have hm' : o.id ∈ sideIds b₁.buy_orders_ := by
                rw [hrm] at hm
                exact hm
              have hb₁buy : b₁.buy_orders_ = bm.buy_orders_ := by
                rw [← hb₁]
                show (OrderBook.add_order_to_level bm
                  { o with filled_quantity := f }).buy_orders_ = _
                rw [OrderBook.add_order_to_level, if_neg homfside]
              rw [hb₁buy] at hm'
              exact hbmfresh.1 hm'
            · intro hm
              have hm' : o.id ∈ sideIds (removeFromSide b₁.sell_orders_
                  oA.price oA.id
                  (sub64 oA.quantity oA.filled_quantity)) := by
                rw [hrm] at hm
                exact hm
              rw [haprice, haid, haq, haf, hb₁sell] at hm'
              rw [mem_sideIds_iff] at hm'
              obtain ⟨e, he, hie⟩ := hm'
              exact ask_rest_cancel_not_mem b.sell_orders_ o.price
                { o with filled_quantity := f } (sub64 o.quantity f)
                hsa htidy.2.2.2
                (fun e' he' hie' =>
                  hflv.2 ((mem_sideIds_iff _ _).2 ⟨e', he', hie'⟩))
                e he hie
        · show lookupA (eraseA (b₁.remove_order_from_level
              { oA with status := OrderStatus.cancelled }).orders_by_id_
            o.id) o.id = none
          rw [hrmst]
          exact lookupA_eraseA_self _ _ hb₁nd
      · rw [if_neg hrest] at hadd
        dsimp only at hadd
        obtain ⟨hb₁, hoA, -, -⟩ := hadd
        rw [hoA] at hb₁
        have haf : oA.filled_quantity = f := by
          rw [← hoA]
          split
          · rfl
          · split <;> rfl
        have haq : oA.quantity = o.quantity := by
          rw [← hoA]
          split
          · rfl
          · split <;> rfl
        have hcond : ¬(oA.filled_quantity < oA.quantity) := by
          rw [haf, haq]
          exact hrest
        rw [if_neg hcond]
        refine ⟨?_, fun hlt => absurd hlt hcond⟩
        rw [idInLevels_eq_false_iff]
        have hb₁buy : b₁.buy_orders_ = bm.buy_orders_ := by
          rw [← hb₁]
        have hb₁sell : b₁.sell_orders_ = bm.sell_orders_ := by
          rw [← hb₁]
        rw [hb₁buy, hb₁sell]
        exact hbmfresh

theorem C1_ioc_amended_witness :
    idInLevels iocRes.1 oBuyIOC5.id = false ∧
    (iocRes.2.filled_quantity < iocRes.2.quantity →
      iocRes.1.get_order oBuyIOC5.id = none) :=
  C1_ioc_amended bookS1 oBuyIOC5 iocRes.1 iocRes.2
    (by decide) (by decide) (by decide) (by decide) (by decide)
    (by decide) (by decide) (by decide) (by decide) (by decide)
    (by unfold SortedBids; decide) (by unfold SortedAsks; decide)
    (by unfold TidyLevels; decide) (by decide)

/-- Time priority inside one level pass: the resting counterparties of the
trades produced by `levelPass` follow the FIFO order of the level's
deque. -/
theorem levelPass_fifo (isBuy : Bool) (sym : String) (price : Nat)
    (ids : List String) (lvlTotal : Nat) (st : MState) :
    ∃ ts, (levelPass isBuy sym price ids lvlTotal st).2.2.trades
        = st.trades ++ ts ∧
      (ts.map fun t => if isBuy then t.sell_order_id
        else t.buy_order_id).Sublist ids := by
  induction ids generalizing lvlTotal st with
  | nil => exact ⟨[], by simp [levelPass], by simp⟩
  | cons i rest ih =>
    simp only [levelPass]
    cases hlk : lookupA st.store i with
    | none =>
      obtain ⟨ts, hts, hsub⟩ := ih lvlTotal st
      exact ⟨ts, hts, hsub.cons i⟩
    | some m =>
      by_cases hq : min (sub64 st.taker.quantity st.taker.filled_quantity)
          (sub64 m.quantity m.filled_quantity) = 0
      · simp only [if_pos hq]
        obtain ⟨ts, hts, hsub⟩ := ih lvlTotal st
        exact ⟨ts, hts, hsub.cons i⟩
      · simp only [if_neg hq]
        by_cases hmf : add64 m.filled_quantity
            (min (sub64 st.taker.quantity st.taker.filled_quantity)
              (sub64 m.quantity m.filled_quantity)) = m.quantity
        · simp only [if_pos hmf]
          by_cases htf : add64 st.taker.filled_quantity
              (min (sub64 st.taker.quantity st.taker.filled_quantity)
                (sub64 m.quantity m.filled_quantity)) = st.taker.quantity
          · simp only [if_pos htf]
            refine ⟨_, rfl, ?_⟩
            cases isBuy <;>
              exact List.Sublist.cons₂ _ (List.nil_sublist rest)
          · simp only [if_neg htf]
            obtain ⟨ts, hts, hsub⟩ := ih (sub64 lvlTotal _) _
            refine ⟨(if isBuy then
                Trade.mk st.taker.id i sym price
                  (min (sub64 st.taker.quantity st.taker.filled_quantity)
                    (sub64 m.quantity m.filled_quantity))
              else
                Trade.mk i st.taker.id sym price
                  (min (sub64 st.taker.quantity st.taker.filled_quantity)
                    (sub64 m.quantity m.filled_quantity))) :: ts, ?_, ?_⟩
            · rw [hts]
              simp
            · cases isBuy <;> exact List.Sublist.cons₂ _ hsub
        · simp only [if_neg hmf]
          by_cases htf : add64 st.taker.filled_quantity
              (min (sub64 st.taker.quantity st.taker.filled_quantity)
                (sub64 m.quantity m.filled_quantity)) = st.taker.quantity
          · simp only [if_pos htf]
            refine ⟨_, rfl, ?_⟩
            cases isBuy <;>
              exact List.Sublist.cons₂ _ (List.nil_sublist rest)
          · simp only [if_neg htf]
            obtain ⟨ts, hts, hsub⟩ := ih (sub64 lvlTotal _) _
            refine ⟨(if isBuy then
                Trade.mk st.taker.id i sym price
                  (min (sub64 st.taker.quantity st.taker.filled_quantity)
                    (sub64 m.quantity m.filled_quantity))
              else
                Trade.mk i st.taker.id sym price
                  (min (sub64 st.taker.quantity st.taker.filled_quantity)
                    (sub64 m.quantity m.filled_quantity))) :: ts, ?_, ?_⟩
            · rw [hts]
              simp
            · cases isBuy <;> exact List.Sublist.cons₂ _ hsub

/-- Price priority across level passes: for any reflexive order `R` such
that the opposing level keys are `R`-sorted, the trades added by a completed
`matchLoop` run happen at level prices of the incoming side and their prices
are pairwise `R`-related in production order. -/
theorem matchLoop_trades_mono (R : Nat → Nat → Prop) (hrefl : ∀ a, R a a)
    (isBuy : Bool) (sym : String) (fuel : Nat) :
    ∀ (opp : Side) (st : MState) (opp' : Side) (st' : MState),
    opp.Pairwise (fun a b => R a.1 b.1) →
    matchLoop isBuy sym fuel opp st = some (opp', st') →
    ∃ ts, st'.trades = st.trades ++ ts ∧
      (∀ t ∈ ts, ∃ e ∈ opp, t.price = e.1) ∧
      ts.Pairwise (fun t₁ t₂ => R t₁.price t₂.price) := by
  induction fuel with
  | zero =>
    intro opp st opp' st' _ h
    exact absurd h (by simp [matchLoop])
  | succ fuel ih =>
    intro opp st opp' st' hsort h
    match opp with
    | [] =>
      rw [matchLoop_succ_nil] at h
      simp only [Option.some.injEq, Prod.mk.injEq] at h
      obtain ⟨-, h2⟩ := h
      subst h2
      exact ⟨[], by simp, by simp, List.Pairwise.nil⟩
    | (price, lvl) :: restLevels =>
      rw [matchLoop_succ_cons] at h
      by_cases hg : st.taker.filled_quantity < st.taker.quantity
      · rw [if_pos hg] at h
        by_cases hc : crosses isBuy st.taker price
        · rw [if_pos hc] at h
          obtain ⟨-, -, -, -, ⟨ts₀, hts₀, hp₀⟩⟩ :=
            levelPass_spec isBuy sym price lvl.orders lvl.total_quantity st
          have hR : ∀ e ∈ restLevels, R price e.1 :=
            fun e he => (List.pairwise_cons.1 hsort).1 e he
          have hsort' : (rebuildOpp price lvl
              (levelPass isBuy sym price lvl.orders lvl.total_quantity st).1
              (levelPass isBuy sym price lvl.orders lvl.total_quantity
                st).2.1 restLevels).Pairwise (fun a b => R a.1 b.1) := by
            unfold rebuildOpp
            split
            · exact (List.pairwise_cons.1 hsort).2
            · exact List.pairwise_cons.2 ⟨fun e he => hR e he,
                (List.pairwise_cons.1 hsort).2⟩
          obtain ⟨ts₁, hts₁, hmem₁, hpw₁⟩ := ih _ _ _ _ hsort' h
          refine ⟨ts₀ ++ ts₁, ?_, ?_, ?_⟩
          · rw [hts₁, hts₀, List.append_assoc]
          · intro t ht
            rcases List.mem_append.1 ht with ht | ht
            · exact ⟨(price, lvl), List.mem_cons_self _ _, hp₀ t ht⟩
            · obtain ⟨e, he, hpe⟩ := hmem₁ t ht
              unfold rebuildOpp at he
              split at he
              · exact ⟨e, List.mem_cons_of_mem _ he, hpe⟩
              · rcases List.mem_cons.1 he with he | he
                · subst he
                  exact ⟨(price, lvl), List.mem_cons_self _ _, hpe⟩
                · exact ⟨e, List.mem_cons_of_mem _ he, hpe⟩
          · rw [List.pairwise_append]
            refine ⟨?_, hpw₁, ?_⟩
            · refine List.pairwise_of_forall_mem_list ?_
              intro t₁ h₁ t₂ h₂
              rw [hp₀ t₁ h₁, hp₀ t₂ h₂]
              exact hrefl price
            · intro t₁ h₁ t₂ h₂
              rw [hp₀ t₁ h₁]
              obtain ⟨e, he, hpe⟩ := hmem₁ t₂ h₂
              rw [hpe]
              unfold rebuildOpp at he
              split at he
              · exact hR e he
              · rcases List.mem_cons.1 he with he | he
                · subst he
                  exact hrefl price
                · exact hR e he
        · rw [if_neg hc] at h
          simp only [Option.some.injEq, Prod.mk.injEq] at h
          obtain ⟨-, h2⟩ := h
          subst h2
          exact ⟨[], by simp, by simp, List.Pairwise.nil⟩
      · rw [if_neg hg] at h
        simp only [Option.some.injEq, Prod.mk.injEq] at h
        obtain ⟨-, h2⟩ := h
        subst h2
        exact ⟨[], by simp, by simp, List.Pairwise.nil⟩

/-- **C7** (price-time priority).  For a single matching pass: against a
price-ascending ask book a buy taker's trade prices are non-decreasing
(best ask first), against a price-descending bid book a sell taker's trade
prices are non-increasing (best bid first); within one price level the
trade counterparties follow the FIFO order of the level's deque; and in the
spec's own scenario — two resting buys at the same price, the earlier
arrival `BF1` first — a crossing sell trades against `BF1`, not `BF2`. -/
theorem C7_price_time_priority :
    (∀ (b : OrderBook) (o : Order) (b' : OrderBook) (o' : Order)
      (tr : List Trade) (ev : List BEvent), SortedAsks b.sell_orders_ →
      o.side = OrderSide.buy →
      b.match_orders o = some (b', o', tr, ev) →
      tr.Pairwise (fun t₁ t₂ => t₁.price ≤ t₂.price)) ∧
    (∀ (b : OrderBook) (o : Order) (b' : OrderBook) (o' : Order)
      (tr : List Trade) (ev : List BEvent), SortedBids b.buy_orders_ →
      o.side = OrderSide.sell →
      b.match_orders o = some (b', o', tr, ev) →
      tr.Pairwise (fun t₁ t₂ => t₂.price ≤ t₁.price)) ∧
    (∀ (isBuy : Bool) (sym : String) (price : Nat) (ids : List String)
      (lvlTotal : Nat) (st : MState),
      ∃ ts, (levelPass isBuy sym price ids lvlTotal st).2.2.trades
          = st.trades ++ ts ∧
        (ts.map fun t => if isBuy then t.sell_order_id
          else t.buy_order_id).Sublist ids) ∧
    (fifoM.2.2.1.map fun t => t.buy_order_id) = ["BF1"] ∧
    (addTrades bookFifo oSellCross).map (fun t => t.buy_order_id) =
      ["BF1"] := by
  refine ⟨?_, ?_, ?_, by decide, by decide⟩
  · intro b o b' o' tr ev hsa hside h
    rw [OrderBook.match_orders, if_pos hside] at h
    cases hml : matchLoop true b.symbol_ (b.sell_orders_.length + 2)
        b.sell_orders_
        ⟨o, b.orders_by_id_, [], [], b.total_trades_, b.total_volume_⟩ with
    | none => rw [hml] at h; exact absurd h (by simp)
    | some r =>
      obtain ⟨opp', st⟩ := r
      rw [hml] at h
      simp only [Option.some.injEq, Prod.mk.injEq] at h
      obtain ⟨-, -, ht, -⟩ := h
      have hsort : b.sell_orders_.Pairwise (fun a b => a.1 ≤ b.1) :=
        List.Pairwise.imp (fun hab => Nat.le_of_lt hab) hsa
      obtain ⟨ts, hts, -, hpw⟩ := matchLoop_trades_mono
        (fun a b => a ≤ b) (fun a => Nat.le_refl a) true b.symbol_
        _ _ _ _ _ hsort hml
      rw [← ht, hts]
      simpa using hpw
  · intro b o b' o' tr ev hsb hside h
    have hside' : ¬(o.side = OrderSide.buy) := by
      rw [hside]
      decide
    rw [OrderBook.match_orders, if_neg hside'] at h
    cases hml : matchLoop false b.symbol_ (b.buy_orders_.length + 2)
        b.buy_orders_
        ⟨o, b.orders_by_id_, [], [], b.total_trades_, b.total_volume_⟩ with
    | none => rw [hml] at h; exact absurd h (by simp)
    | some r =>
      obtain ⟨opp', st⟩ := r
      rw [hml] at h
      simp only [Option.some.injEq, Prod.mk.injEq] at h
      obtain ⟨-, -, ht, -⟩ := h
      have hsort : b.buy_orders_.Pairwise (fun a b => b.1 ≤ a.1) :=
        List.Pairwise.imp (fun hab => Nat.le_of_lt hab) hsb
      obtain ⟨ts, hts, -, hpw⟩ := matchLoop_trades_mono
        (fun a b => b ≤ a) (fun a => Nat.le_refl a) false b.symbol_
        _ _ _ _ _ hsort hml
      rw [← ht, hts]
      simpa using hpw
  · intro isBuy sym price ids lvlTotal st
    exact levelPass_fifo isBuy sym price ids lvlTotal st

theorem C7_price_time_priority_witness :
    fifoM.2.2.1.Pairwise (fun t₁ t₂ => t₂.price ≤ t₁.price) :=
  C7_price_time_priority.2.1 bookFifo oSellCross fifoM.1 fifoM.2.1
    fifoM.2.2.1 fifoM.2.2.2 (by unfold SortedBids; decide) (by decide)
    (by decide)

/-- Key-sortedness transfers along a sublist of the key list. -/
theorem sorted_keys_sub (R : Nat → Nat → Prop) {s₁ s₂ : Side}
    (hsub : (s₁.map Prod.fst).Sublist (s₂.map Prod.fst))
    (hs : s₂.Pairwise (fun a b => R a.1 b.1)) :
    s₁.Pairwise (fun a b => R a.1 b.1) :=
  List.pairwise_map.1 ((List.pairwise_map.2 hs).sublist hsub)

theorem map_fst_map_of_fst_eq (s : Side) (g : Nat × Level → Nat × Level)
    (hg : ∀ e ∈ s, (g e).1 = e.1) :
    (s.map g).map Prod.fst = s.map Prod.fst := by
  induction s with
  | nil => rfl
  | cons e rest ih =>
    simp only [List.map_cons, hg e (List.mem_cons_self _ _),
      ih (fun e' he' => hg e' (List.mem_cons_of_mem _ he'))]

/-- Removing an order from a level only erases or rewrites levels in
place: the key list shrinks or stays. -/
theorem removeFromSide_keys_sublist (s : Side) (p : Nat) (i : String)
    (rem : Nat) :
    ((removeFromSide s p i rem).map Prod.fst).Sublist (s.map Prod.fst) := by
  rw [removeFromSide]
  split
  · exact List.Sublist.refl _
  next lvl hfl =>
    split
    · split
      · exact (eraseLevel_sublist s p).map Prod.fst
      · have heq := map_fst_map_of_fst_eq s
          (fun e => if e.1 = p then
            (p, { lvl with orders := lvl.orders.erase i,
                           total_quantity := sub64 lvl.total_quantity rem })
            else e)
          (fun e _ => by
            dsimp only
            split
            next hp => exact hp.symm
            next => rfl)
        rw [heq]
    · exact List.Sublist.refl _

theorem crosses_true_false_lt (t : Order) (p : Nat)
    (htype : ¬(t.type = OrderType.market))
    (hc : crosses true t p = false) : t.price < p := by
  rw [crosses, if_neg htype] at hc
  rw [if_pos rfl] at hc
  exact Nat.lt_of_not_le (of_decide_eq_false hc)

theorem crosses_false_false_lt (t : Order) (p : Nat)
    (htype : ¬(t.type = OrderType.market))
    (hc : crosses false t p = false) : p < t.price := by
  rw [crosses, if_neg htype] at hc
  rw [if_neg (by decide : ¬((false : Bool) = true))] at hc
  exact Nat.lt_of_not_le (of_decide_eq_false hc)

/-- One `match_orders` pass keeps the book ordered and uncrossed: the taker
side is untouched and the opposing side only loses its best levels. -/
theorem match_orders_ordered (b : OrderBook) (t : Order) (b' : OrderBook)
    (o' : Order) (tr : List Trade) (ev : List BEvent)
    (h : b.match_orders t = some (b', o', tr, ev))
    (hb : BookOrdered b) : BookOrdered b' := by
  obtain ⟨hsb, hsa, hux⟩ := hb
  obtain ⟨-, -, -, -, -, hbuy, hsell⟩ := match_orders_spec _ _ _ _ _ _ h
  by_cases hside : t.side = OrderSide.buy
  · obtain ⟨hbq, hsfx, -, -, -, -⟩ := hbuy hside
    refine ⟨?_, sorted_keys_sub (fun a b => a < b) hsfx.sublist hsa, ?_⟩
    · rw [hbq]
      exact hsb
    · intro pb hpb pa hpa
      rw [hbq] at hpb
      exact hux pb hpb pa (hsfx.sublist.subset hpa)
  · have hside' : t.side = OrderSide.sell := by
      cases hs : t.side
      · exact absurd hs hside
      · rfl
    obtain ⟨hsq, hsfx, -, -, -, -⟩ := hsell hside'
    refine ⟨sorted_keys_sub (fun a b => b < a) hsfx.sublist hsb, ?_, ?_⟩
    · rw [hsq]
      exact hsa
    · intro pb hpb pa hpa
      rw [hsq] at hpa
      exact hux pb (hsfx.sublist.subset hpb) pa hpa

/-- Resting the unfilled remainder after a match keeps the book ordered:
the while-loop's stop condition guarantees the surviving best opposing
level no longer crosses the taker's limit price. -/
theorem rest_after_match_ordered (b : OrderBook) (t : Order)
    (b' : OrderBook) (o' : Order) (tr : List Trade) (ev : List BEvent)
    (htaker : t.type ≠ OrderType.market)
    (h : b.match_orders t = some (b', o', tr, ev))
    (hfl : o'.filled_quantity < o'.quantity)
    (hb : BookOrdered b) : BookOrdered (b'.add_order_to_level o') := by
  obtain ⟨hsb', hsa', hux'⟩ := match_orders_ordered _ _ _ _ _ _ h hb
  obtain ⟨⟨f, hf⟩, -, -, -, -, hbuy, hsell⟩ := match_orders_spec _ _ _ _ _ _ h
  have ho'type : ¬(o'.type = OrderType.market) := by
    rw [hf]
    exact htaker
  by_cases hside : t.side = OrderSide.buy
  · have ho's : o'.side = OrderSide.buy := by
      rw [hf]
      exact hside
    obtain ⟨-, -, -, -, hstop, -⟩ := hbuy hside
    have hrm := hstop hfl
    rw [OrderBook.add_order_to_level, if_pos ho's]
    refine ⟨?_, hsa', ?_⟩
    · exact upsertLevel_pairwise (fun a b => b < a) bidBefore
        (fun a b hx => of_decide_eq_true hx)
        (fun a b hne hx => Nat.lt_of_le_of_ne
          (Nat.le_of_not_lt (of_decide_eq_false hx)) hne)
        (fun h1 h2 => Nat.lt_trans h2 h1) o'.price _ _ hsb'
    · intro pb hpb pa hpa
      rcases mem_map_fst_upsertLevel _ _ _ _ _ hpb with hpb' | hpb'
      · subst hpb'
        rcases hrm with hemp | ⟨p, lvl, rest2, hsq, hcx⟩
        · rw [hemp] at hpa
          exact absurd hpa (List.not_mem_nil pa)
        · have hlt : o'.price < p := crosses_true_false_lt o' p ho'type hcx
          rw [hsq] at hpa
          simp only [List.map_cons, List.mem_cons] at hpa
          rcases hpa with hpa | hpa
          · subst hpa
            exact hlt
          · rw [hsq] at hsa'
            obtain ⟨e, he, hpe⟩ := List.mem_map.1 hpa
            have h2 := (List.pairwise_cons.1 hsa').1 e he
            rw [hpe] at h2
            exact Nat.lt_trans hlt h2
      · exact hux' pb hpb' pa hpa
  · have hside' : t.side = OrderSide.sell := by
      cases hs : t.side
      · exact absurd hs hside
      · rfl
    have ho's : ¬(o'.side = OrderSide.buy) := by
      rw [hf]
      exact hside
    obtain ⟨-, -, -, -, hstop, -⟩ := hsell hside'
    have hrm := hstop hfl
    rw [OrderBook.add_order_to_level, if_neg ho's]
    refine ⟨hsb', ?_, ?_⟩
    · exact upsertLevel_pairwise (fun a b => a < b) askBefore
        (fun a b hx => of_decide_eq_true hx)
        (fun a b hne hx => Nat.lt_of_le_of_ne
          (Nat.le_of_not_lt (of_decide_eq_false hx)) hne.symm)
        (fun h1 h2 => Nat.lt_trans h1 h2) o'.price _ _ hsa'
    · intro pb hpb pa hpa
      rcases mem_map_fst_upsertLevel _ _ _ _ _ hpa with hpa' | hpa'
      · subst hpa'
        rcases hrm with hemp | ⟨p, lvl, rest2, hbq2, hcx⟩
        · rw [hemp] at hpb
          exact absurd hpb (List.not_mem_nil pb)
        · have hlt : p < o'.price := crosses_false_false_lt o' p ho'type hcx
          rw [hbq2] at hpb
          simp only [List.map_cons, List.mem_cons] at hpb
          rcases hpb with hpb | hpb
          · subst hpb
            exact hlt
          · rw [hbq2] at hsb'
            obtain ⟨e, he, hpe⟩ := List.mem_map.1 hpb
            have h2 := (List.pairwise_cons.1 hsb').1 e he
            rw [hpe] at h2
            exact Nat.lt_trans h2 hlt
      · exact hux' pb hpb pa hpa'

theorem process_market_order_ordered (b : OrderBook) (o : Order)
    (b' : OrderBook) (o' : Order) (ev : List BEvent)
    (h : b.process_market_order o = some (b', o', ev))
    (hb : BookOrdered b) : BookOrdered b' := by
  obtain ⟨o₁, tr, hm, -⟩ := process_market_order_inv _ _ _ _ _ h
  exact match_orders_ordered _ _ _ _ _ _ hm hb

theorem process_stop_order_ordered (b : OrderBook) (o : Order)
    (b' : OrderBook) (o' : Order) (ev : List BEvent)
    (h : b.process_stop_order o = some (b', o', ev))
    (hb : BookOrdered b) : BookOrdered b' := by
  rw [OrderBook.process_stop_order] at h
  dsimp only at h
  by_cases hside : o.side = OrderSide.buy
  · rw [if_pos hside] at h
    by_cases hmp : b.get_best_ask = 0
    · rw [if_pos hmp] at h
      simp only [Option.some.injEq, Prod.mk.injEq] at h
      obtain ⟨h1, -, -⟩ := h
      rw [← h1]
      exact hb
    · rw [if_neg hmp] at h
      simp only [hside, if_true] at h
      by_cases htr : o.stop_price ≤ b.get_best_ask
      · rw [if_pos htr] at h
        exact process_market_order_ordered _ _ _ _ _ h hb
      · rw [if_neg htr] at h
        simp only [Option.some.injEq, Prod.mk.injEq] at h
        obtain ⟨h1, -, -⟩ := h
        rw [← h1]
        exact hb
  · rw [if_neg hside] at h
    by_cases hmp : b.get_best_bid = 0
    · rw [if_pos hmp] at h
      simp only [Option.some.injEq, Prod.mk.injEq] at h
      obtain ⟨h1, -, -⟩ := h
      rw [← h1]
      exact hb
    · rw [if_neg hmp] at h
      have hside2 : o.side = OrderSide.sell := by
        cases hs : o.side
        · exact absurd hs hside
        · rfl
      simp only [hside2, reduceCtorEq, if_false] at h
      by_cases htr : b.get_best_bid ≤ o.stop_price
      · rw [if_pos htr] at h
        exact process_market_order_ordered _ _ _ _ _ h hb
      · rw [if_neg htr] at h
        simp only [Option.some.injEq, Prod.mk.injEq] at h
        obtain ⟨h1, -, -⟩ := h
        rw [← h1]
        exact hb

/-- The shared limit-dispatch shape: match, then rest the remainder. -/
theorem limit_match_map_ordered (b : OrderBook) (t : Order)
    (res : OrderBook × Order × List BEvent)
    (htaker : t.type ≠ OrderType.market)
    (h : ((b.match_orders t).map fun r =>
      if r.2.1.filled_quantity < r.2.1.quantity
      then (r.1.add_order_to_level r.2.1, r.2.1, r.2.2.2)
      else (r.1, r.2.1, r.2.2.2)) = some res)
    (hb : BookOrdered b) : BookOrdered res.1 := by
  cases hm : b.match_orders t with
  | none => rw [hm] at h; exact absurd h (by simp)
  | some rm =>
    obtain ⟨bm, om, trm, evm⟩ := rm
    rw [hm] at h
    simp only [Option.map_some', Option.some.injEq] at h
    by_cases hfl : om.filled_quantity < om.quantity
    · rw [if_pos hfl] at h
      rw [← h]
      exact rest_after_match_ordered b t bm om trm evm htaker hm hfl hb
    · rw [if_neg hfl] at h
      rw [← h]
      exact match_orders_ordered b t bm om trm evm hm hb

theorem process_stop_limit_order_ordered (b : OrderBook) (o : Order)
    (b' : OrderBook) (o' : Order) (ev : List BEvent)
    (h : b.process_stop_limit_order o = some (b', o', ev))
    (hb : BookOrdered b) : BookOrdered b' := by
  rw [OrderBook.process_stop_limit_order] at h
  dsimp only at h
  by_cases hside : o.side = OrderSide.buy
  · rw [if_pos hside] at h
    by_cases hmp : b.get_best_ask = 0
    · rw [if_pos hmp] at h
      simp only [Option.some.injEq, Prod.mk.injEq] at h
      obtain ⟨h1, -, -⟩ := h
      rw [← h1]
      exact hb
    · rw [if_neg hmp] at h
      simp only [hside, if_true] at h
      by_cases htr : o.stop_price ≤ b.get_best_ask
      · rw [if_pos htr] at h
        exact limit_match_map_ordered b _ (b', o', ev)
          (fun hc => OrderType.noConfusion hc) h hb
      · rw [if_neg htr] at h
        simp only [Option.some.injEq, Prod.mk.injEq] at h
        obtain ⟨h1, -, -⟩ := h
        rw [← h1]
        exact hb
  · rw [if_neg hside] at h
    by_cases hmp : b.get_best_bid = 0
    · rw [if_pos hmp] at h
      simp only [Option.some.injEq, Prod.mk.injEq] at h
      obtain ⟨h1, -, -⟩ := h
      rw [← h1]
      exact hb
    · rw [if_neg hmp] at h
      have hside2 : o.side = OrderSide.sell := by
        cases hs : o.side
        · exact absurd hs hside
        · rfl
      simp only [hside2, reduceCtorEq, if_false] at h
      by_cases htr : b.get_best_bid ≤ o.stop_price
      · rw [if_pos htr] at h
        exact limit_match_map_ordered b _ (b', o', ev)
          (fun hc => OrderType.noConfusion hc) h hb
      · rw [if_neg htr] at h
        simp only [Option.some.injEq, Prod.mk.injEq] at h
        obtain ⟨h1, -, -⟩ := h
        rw [← h1]
        exact hb

/-- `add_order` keeps the book ordered and uncrossed, whatever the order
type. -/
theorem add_order_ordered (b : OrderBook) (o : Order)
    (r : OrderBook × Order × List Trade × List BEvent)
    (h : b.add_order o = some r) (hb : BookOrdered b) : BookOrdered r.1 := by
  rw [OrderBook.add_order] at h
  by_cases hval : o.quantity = 0 ∨ MAX_ORDER_QUANTITY < o.quantity ∨
      (o.type = OrderType.limit ∧ (o.price = 0 ∨ MAX_ORDER_PRICE < o.price))
  · rw [if_pos hval] at h
    simp only [Option.some.injEq] at h
    rw [← h]
    exact hb
  · rw [if_neg hval] at h
    cases hty : o.type with
    | market =>
      simp only [hty] at h
      cases hpm : OrderBook.process_market_order
          { b with orders_by_id_ := insertA b.orders_by_id_ o.id o,
                   total_orders_ := add64 b.total_orders_ 1 } o with
      | none => rw [hpm] at h; exact absurd h (by simp)
      | some rp =>
        obtain ⟨bp, op, evp⟩ := rp
        rw [hpm] at h
        simp only [Option.map_some', Option.some.injEq] at h
        rw [← h]
        exact process_market_order_ordered _ o bp op evp hpm hb
    | limit =>
      simp only [hty] at h
      cases hm : OrderBook.match_orders
          { b with orders_by_id_ := insertA b.orders_by_id_ o.id o,
                   total_orders_ := add64 b.total_orders_ 1 } o with
      | none => rw [hm] at h; exact absurd h (by simp)
      | some rm =>
        obtain ⟨bm, om, trm, evm⟩ := rm
        rw [hm] at h
        simp only [Option.map_some', Option.some.injEq] at h
        by_cases hfl : om.filled_quantity < om.quantity
        · rw [if_pos hfl] at h
          rw [← h]
          exact rest_after_match_ordered _ o bm om trm evm
            (by rw [hty]; decide) hm hfl hb
        · rw [if_neg hfl] at h
          rw [← h]
          exact match_orders_ordered _ o bm om trm evm hm hb
    | stop =>
      simp only [hty] at h
      cases hps : OrderBook.process_stop_order
          { b with orders_by_id_ := insertA b.orders_by_id_ o.id o,
                   total_orders_ := add64 b.total_orders_ 1 } o with
      | none => rw [hps] at h; exact absurd h (by simp)
      | some rp =>
        obtain ⟨bp, op, evp⟩ := rp
        rw [hps] at h
        simp only [Option.map_some', Option.some.injEq] at h
        rw [← h]
        exact process_stop_order_ordered _ o bp op evp hps hb
    | stopLimit =>
      simp only [hty] at h
      cases hps : OrderBook.process_stop_limit_order
          { b with orders_by_id_ := insertA b.orders_by_id_ o.id o,
                   total_orders_ := add64 b.total_orders_ 1 } o with
      | none => rw [hps] at h; exact absurd h (by simp)
      | some rp =>
        obtain ⟨bp, op, evp⟩ := rp
        rw [hps] at h
        simp only [Option.map_some', Option.some.injEq] at h
        rw [← h]
        exact process_stop_limit_order_ordered _ o bp op evp hps hb

theorem remove_order_from_level_ordered (b : OrderBook) (o : Order)
    (hb : BookOrdered b) : BookOrdered (b.remove_order_from_level o) := by
  obtain ⟨hsb, hsa, hux⟩ := hb
  rw [OrderBook.remove_order_from_level]
  split
  · refine ⟨sorted_keys_sub (fun a b => b < a)
      (removeFromSide_keys_sublist _ _ _ _) hsb, hsa, ?_⟩
    intro pb hpb pa hpa
    exact hux pb ((removeFromSide_keys_sublist _ _ _ _).subset hpb) pa hpa
  · refine ⟨hsb, sorted_keys_sub (fun a b => a < b)
      (removeFromSide_keys_sublist _ _ _ _) hsa, ?_⟩
    intro pb hpb pa hpa
    exact hux pb hpb pa ((removeFromSide_keys_sublist _ _ _ _).subset hpa)

theorem cancel_order_ordered (b : OrderBook) (i : String)
    (hb : BookOrdered b) : BookOrdered (b.cancel_order i).1 := by
  cases hlk : lookupA b.orders_by_id_ i with
  | none =>
    have hres : b.cancel_order i = (b, false, []) := by
      simp only [OrderBook.cancel_order, hlk]
    rw [hres]
    exact hb
  | some o =>
    by_cases hterm : o.status = OrderStatus.filled ∨
        o.status = OrderStatus.cancelled
    · have hres : b.cancel_order i = (b, false, []) := by
        simp only [OrderBook.cancel_order, hlk, if_pos hterm]
      rw [hres]
      exact hb
    · rw [cancel_order_true_shape b i o hlk hterm]
      split
      · exact remove_order_from_level_ordered b _ hb
      · exact hb

theorem modify_order_ordered (b : OrderBook) (i : String) (np nq : Nat)
    (r : OrderBook × Bool × List BEvent)
    (h : b.modify_order i np nq = some r)
    (hb : BookOrdered b) : BookOrdered r.1 := by
  rw [OrderBook.modify_order] at h
  cases hlk : lookupA b.orders_by_id_ i with
  | none =>
    rw [hlk] at h
    dsimp only at h
    simp only [Option.some.injEq] at h
    rw [← h]
    exact hb
  | some o =>
    rw [hlk] at h
    dsimp only at h
    by_cases h1 : o.status = OrderStatus.filled ∨
        o.status = OrderStatus.cancelled
    · rw [if_pos h1] at h
      simp only [Option.some.injEq] at h
      rw [← h]
      exact hb
    · rw [if_neg h1] at h
      by_cases h2 : o.quantity ≤ o.filled_quantity
      · rw [if_pos h2] at h
        simp only [Option.some.injEq] at h
        rw [← h]
        exact hb
      · rw [if_neg h2] at h
        by_cases h3 : nq ≤ o.quantity ∧ np = o.price
        · rw [if_pos h3] at h
          simp only [Option.some.injEq] at h
          rw [← h]
          exact hb
        · rw [if_neg h3] at h
          cases hadd : OrderBook.add_order (b.cancel_order i).1
              { id := o.id, symbol := o.symbol, side := o.side,
                type := o.type, price := np, stop_price := 0,
                quantity := nq, user_id := o.user_id } with
          | none => rw [hadd] at h; exact absurd h (by simp)
          | some r₂ =>
            obtain ⟨b₂, o₂, tr₂, ev₂⟩ := r₂
            rw [hadd] at h
            simp only [Option.some.injEq] at h
            rw [← h]
            exact add_order_ordered _ _ _ hadd (cancel_order_ordered b i hb)

theorem foldl_cancel_ordered (ids : List String) :
    ∀ acc : OrderBook × List BEvent, BookOrdered acc.1 →
    BookOrdered (ids.foldl (fun acc i =>
      ((acc.1.cancel_order i).1, acc.2 ++ (acc.1.cancel_order i).2.2))
      acc).1 := by
  induction ids with
  | nil => exact fun acc h => h
  | cons i rest ih =>
    intro acc h
    exact ih _ (cancel_order_ordered acc.1 i h)

theorem cancel_expired_ordered (b : OrderBook) (now : Int)
    (hb : BookOrdered b) : BookOrdered (b.cancel_expired_orders now).1 :=
  foldl_cancel_ordered _ (b, []) hb

theorem clear_ordered (b : OrderBook) : BookOrdered b.clear :=
  ⟨List.Pairwise.nil, List.Pairwise.nil,
    fun pb hpb _ _ => absurd hpb (List.not_mem_nil pb)⟩

theorem empty_book_ordered (sym : String) :
    BookOrdered (OrderBook.empty sym) :=
  ⟨List.Pairwise.nil, List.Pairwise.nil,
    fun pb hpb _ _ => absurd hpb (List.not_mem_nil pb)⟩

/-- Every completed public operation preserves order and no-crossing. -/
theorem step_ordered (b : OrderBook) (op : Op) (b' : OrderBook)
    (h : b.step op = some b') (hb : BookOrdered b) : BookOrdered b' := by
  cases op with
  | add o =>
    simp only [OrderBook.step] at h
    cases hadd : b.add_order o with
    | none => rw [hadd] at h; exact absurd h (by simp)
    | some r =>
      rw [hadd] at h
      simp only [Option.map_some', Option.some.injEq] at h
      rw [← h]
      exact add_order_ordered b o r hadd hb
  | cancel i =>
    simp only [OrderBook.step, Option.some.injEq] at h
    rw [← h]
    exact cancel_order_ordered b i hb
  | modify i p q =>
    simp only [OrderBook.step] at h
    cases hm : b.modify_order i p q with
    | none => rw [hm] at h; exact absurd h (by simp)
    | some r =>
      rw [hm] at h
      simp only [Option.map_some', Option.some.injEq] at h
      rw [← h]
      exact modify_order_ordered b i p q r hm hb
  | cancelExpired now =>
    simp only [OrderBook.step, Option.some.injEq] at h
    rw [← h]
    exact cancel_expired_ordered b now hb
  | clear =>
    simp only [OrderBook.step, Option.some.injEq] at h
    rw [← h]
    exact clear_ordered b

theorem reaches_ordered (b : OrderBook) (h : OrderBook.Reaches b) :
    BookOrdered b := by
  induction h with
  | init sym => exact empty_book_ordered sym
  | next hr hs ih => exact step_ordered _ _ _ hs ih

/-- **C6** (confirmed).  Every book reachable from a fresh book by
completed operations is uncrossed: no resting bid price is ≥ any resting
ask price, so `best_bid < best_ask` whenever both sides are nonempty. -/
theorem C6_never_crossed (b : OrderBook) (h : OrderBook.Reaches b) :
    Uncrossed b ∧
    (b.buy_orders_ ≠ [] → b.sell_orders_ ≠ [] →
      b.get_best_bid < b.get_best_ask) := by
  have hb := reaches_ordered b h
  refine ⟨hb.2.2, fun hbne hsne => ?_⟩
  cases hbq : b.buy_orders_ with
  | nil => exact absurd hbq hbne
  | cons e rest =>
    cases hsq : b.sell_orders_ with
    | nil => exact absurd hsq hsne
    | cons e' rest' =>
      obtain ⟨pb, lb⟩ := e
      obtain ⟨pa, la⟩ := e'
      have h1 : b.get_best_bid = pb := by
        simp only [OrderBook.get_best_bid, hbq]
      have h2 : b.get_best_ask = pa := by
        simp only [OrderBook.get_best_ask, hsq]
      rw [h1, h2]
      refine hb.2.2 pb ?_ pa ?_
      · rw [hbq]
        exact List.mem_cons_self _ _
      · rw [hsq]
        exact List.mem_cons_self _ _

theorem C6_never_crossed_witness :
    Uncrossed bookS1 ∧
    (bookS1.buy_orders_ ≠ [] → bookS1.sell_orders_ ≠ [] →
      bookS1.get_best_bid < bookS1.get_best_ask) :=
  C6_never_crossed bookS1
    (@OrderBook.Reaches.next (OrderBook.empty "X") bookS1 (Op.add oSell1)
      (OrderBook.Reaches.init "X") (by decide))

theorem lookupA_of_mem_nodup {β : Type} {l : List (String × β)}
    {e : String × β} (he : e ∈ l) (hnd : (l.map Prod.fst).Nodup) :
    lookupA l e.1 = some e.2 := by
  induction l with
  | nil => exact absurd he (List.not_mem_nil e)
  | cons e₀ rest ih =>
    obtain ⟨k₀, v₀⟩ := e₀
    simp only [List.map_cons, List.nodup_cons] at hnd
    rcases List.mem_cons.1 he with he | he
    · subst he
      simp [lookupA]
    · have hne : ¬(k₀ = e.1) := by
        intro hc
        exact hnd.1 (by rw [hc]; exact List.mem_map.2 ⟨e, he, rfl⟩)
      simp only [lookupA, if_neg hne]
      exact ih he hnd.2

theorem lookupA_mem {β : Type} {l : List (String × β)} {k : String}
    {v : β} (h : lookupA l k = some v) : (k, v) ∈ l := by
  induction l with
  | nil => exact absurd h (by simp [lookupA])
  | cons e rest ih =>
    obtain ⟨k₀, v₀⟩ := e
    by_cases h₀ : k₀ = k
    · subst h₀
      have hv : v₀ = v := by
        simpa [lookupA] using h
      rw [← hv]
      exact List.mem_cons_self _ _
    · have h' : lookupA rest k = some v := by
        simpa [lookupA, h₀] using h
      exact List.mem_cons_of_mem _ (ih h')

/-- Removing an id from a level only shrinks the FIFO deques. -/
theorem removeFromSide_orders_subset (s : Side) (p : Nat) (j : String)
    (rem : Nat) :
    ∀ e ∈ removeFromSide s p j rem, ∃ e₀ ∈ s,
      ∀ x ∈ e.2.orders, x ∈ e₀.2.orders := by
  intro e he
  rw [removeFromSide] at he
  split at he
  · exact ⟨e, he, fun x hx => hx⟩
  next lvl hfl =>
    split at he
    · split at he
      · exact ⟨e, (eraseLevel_sublist s p).subset he, fun x hx => hx⟩
      · rcases List.mem_map.1 he with ⟨e₀, he₀, heq⟩
        by_cases hp : e₀.1 = p
        · rw [if_pos hp] at heq
          subst heq
          refine ⟨(p, lvl), findLevel_some_mem hfl, ?_⟩
          intro x hx
          exact List.mem_of_mem_erase hx
        · rw [if_neg hp] at heq
          subst heq
          exact ⟨e₀, he₀, fun x hx => hx⟩
    · exact ⟨e, he, fun x hx => hx⟩

theorem remove_level_keeps_fresh (b : OrderBook) (oc : Order) (i : String)
    (hlev : idInLevels b i = false) :
    idInLevels (b.remove_order_from_level oc) i = false := by
  rw [idInLevels_eq_false_iff] at hlev
  rw [OrderBook.remove_order_from_level]
  split
  · rw [idInLevels_eq_false_iff]
    refine ⟨?_, hlev.2⟩
    intro hm
    rw [mem_sideIds_iff] at hm
    obtain ⟨e, he, hie⟩ := hm
    obtain ⟨e₀, he₀, hsubset⟩ := removeFromSide_orders_subset _ _ _ _ e he
    exact hlev.1 ((mem_sideIds_iff _ _).2 ⟨e₀, he₀, hsubset i hie⟩)
  · rw [idInLevels_eq_false_iff]
    refine ⟨hlev.1, ?_⟩
    intro hm
    rw [mem_sideIds_iff] at hm
    obtain ⟨e, he, hie⟩ := hm
    obtain ⟨e₀, he₀, hsubset⟩ := removeFromSide_orders_subset _ _ _ _ e he
    exact hlev.2 ((mem_sideIds_iff _ _).2 ⟨e₀, he₀, hsubset i hie⟩)

/-- A matching pass never touches the store entry, store key or resting
state of an id that rests in no level. -/
theorem match_preserves_untouched (b : OrderBook) (t : Order)
    (b' : OrderBook) (o' : Order) (tr : List Trade) (ev : List BEvent)
    (h : b.match_orders t = some (b', o', tr, ev)) (i : String)
    (hlev : idInLevels b i = false) :
    lookupA b'.orders_by_id_ i = lookupA b.orders_by_id_ i ∧
    idInLevels b' i = false ∧
    b'.orders_by_id_.map Prod.fst = b.orders_by_id_.map Prod.fst := by
  rw [idInLevels_eq_false_iff] at hlev
  obtain ⟨-, -, -, -, hkeys, hbuy, hsell⟩ := match_orders_spec _ _ _ _ _ _ h
  by_cases hside : t.side = OrderSide.buy
  · obtain ⟨hbq, -, -, hstore, -, hlvl⟩ := hbuy hside
    refine ⟨hstore i (fun hm => hlev.2 hm), ?_, hkeys⟩
    rw [idInLevels_eq_false_iff]
    constructor
    · rw [hbq]
      exact hlev.1
    · intro hm
      rw [mem_sideIds_iff] at hm
      obtain ⟨e, he, hie⟩ := hm
      obtain ⟨e₀, he₀, -, hsub⟩ := hlvl e he
      exact hlev.2 ((mem_sideIds_iff _ _).2 ⟨e₀, he₀, hsub.subset hie⟩)
  · have hside' : t.side = OrderSide.sell := by
      cases hs : t.side
      · exact absurd hs hside
      · rfl
    obtain ⟨hsq, -, -, hstore, -, hlvl⟩ := hsell hside'
    refine ⟨hstore i (fun hm => hlev.1 hm), ?_, hkeys⟩
    rw [idInLevels_eq_false_iff]
    constructor
    · intro hm
      rw [mem_sideIds_iff] at hm
      obtain ⟨e, he, hie⟩ := hm
      obtain ⟨e₀, he₀, -, hsub⟩ := hlvl e he
      exact hlev.1 ((mem_sideIds_iff _ _).2 ⟨e₀, he₀, hsub.subset hie⟩)
    · rw [hsq]
      exact hlev.2

/-- `add_order_to_level` neither touches the store nor makes a different
id rest anywhere. -/
theorem atl_preserves_fresh (b : OrderBook) (om : Order) (i : String)
    (hne : om.id ≠ i) (hlev : idInLevels b i = false) :
    idInLevels (b.add_order_to_level om) i = false ∧
    (b.add_order_to_level om).orders_by_id_ = b.orders_by_id_ := by
  constructor
  · rw [idInLevels_eq_false_iff] at hlev
    rw [OrderBook.add_order_to_level]
    split
    · rw [idInLevels_eq_false_iff]
      refine ⟨?_, hlev.2⟩
      intro hm
      rw [mem_sideIds_iff] at hm
      obtain ⟨e, he, hie⟩ := hm
      rcases mem_upsertLevel_cases _ _ _ _ _ he with he' | ⟨-, hbody⟩
      · exact hlev.1 ((mem_sideIds_iff _ _).2 ⟨e, he', hie⟩)
      · rcases hbody with hb' | ⟨lvl, hl, hb'⟩
        · rw [hb'] at hie
          exact hne (List.mem_singleton.1 hie).symm
        · rw [hb'] at hie
          rcases List.mem_append.1 hie with hie | hie
          · exact hlev.1 ((mem_sideIds_iff _ _).2 ⟨(om.price, lvl), hl, hie⟩)
          · exact hne (List.mem_singleton.1 hie).symm
    · rw [idInLevels_eq_false_iff]
      refine ⟨hlev.1, ?_⟩
      intro hm
      rw [mem_sideIds_iff] at hm
      obtain ⟨e, he, hie⟩ := hm
      rcases mem_upsertLevel_cases _ _ _ _ _ he with he' | ⟨-, hbody⟩
      · exact hlev.2 ((mem_sideIds_iff _ _).2 ⟨e, he', hie⟩)
      · rcases hbody with hb' | ⟨lvl, hl, hb'⟩
        · rw [hb'] at hie
          exact hne (List.mem_singleton.1 hie).symm
        · rw [hb'] at hie
          rcases List.mem_append.1 hie with hie | hie
          · exact hlev.2 ((mem_sideIds_iff _ _).2 ⟨(om.price, lvl), hl, hie⟩)
          · exact hne (List.mem_singleton.1 hie).symm
  · rw [OrderBook.add_order_to_level]
    split <;> rfl

/-- The finalizer step of `add_order` (re-insert under the submitted id,
append history) keeps an armed stop armed. -/
theorem store_insert_armed (bX : OrderBook) (k : String) (v : Order)
    (th : List Trade) (i : String) (o : Order) (hne : k ≠ i)
    (hlk : lookupA bX.orders_by_id_ i = some o)
    (hlev : idInLevels bX i = false)
    (hnd : (bX.orders_by_id_.map Prod.fst).Nodup)
    (hty : o.type = OrderType.stop ∨ o.type = OrderType.stopLimit)
    (hst : o.status = OrderStatus.new)
    (hfq : o.filled_quantity = 0) :
    ArmedStop { bX with
      orders_by_id_ := insertA bX.orders_by_id_ k v
      trade_history_ := th } i o := by
  refine ⟨?_, hty, hst, hfq, hlev, ?_⟩
  · show lookupA (insertA bX.orders_by_id_ k v) i = some o
    rw [lookupA_insertA_ne _ _ _ _ hne]
    exact hlk
  · show ((insertA bX.orders_by_id_ k v).map Prod.fst).Nodup
    exact insertA_map_fst_nodup _ _ _ hnd

theorem pm_preserves_untouched (b : OrderBook) (t : Order) (b' : OrderBook)
    (o' : Order) (ev : List BEvent)
    (h : b.process_market_order t = some (b', o', ev)) (i : String)
    (hlev : idInLevels b i = false) :
    lookupA b'.orders_by_id_ i = lookupA b.orders_by_id_ i ∧
    idInLevels b' i = false ∧
    b'.orders_by_id_.map Prod.fst = b.orders_by_id_.map Prod.fst := by
  obtain ⟨o₁, tr, hm, -⟩ := process_market_order_inv _ _ _ _ _ h
  exact match_preserves_untouched _ _ _ _ _ _ hm i hlev

theorem ps_preserves_untouched (b : OrderBook) (t : Order) (b' : OrderBook)
    (o' : Order) (ev : List BEvent)
    (h : b.process_stop_order t = some (b', o', ev)) (i : String)
    (hlev : idInLevels b i = false) :
    lookupA b'.orders_by_id_ i = lookupA b.orders_by_id_ i ∧
    idInLevels b' i = false ∧
    b'.orders_by_id_.map Prod.fst = b.orders_by_id_.map Prod.fst := by
  rw [OrderBook.process_stop_order] at h
  dsimp only at h
  by_cases hside : t.side = OrderSide.buy
  · rw [if_pos hside] at h
    by_cases hmp : b.get_best_ask = 0
    · rw [if_pos hmp] at h
      simp only [Option.some.injEq, Prod.mk.injEq] at h
      obtain ⟨h1, -, -⟩ := h
      rw [← h1]
      exact ⟨rfl, hlev, rfl⟩
    · rw [if_neg hmp] at h
      simp only [hside, if_true] at h
      by_cases htr : t.stop_price ≤ b.get_best_ask
      · rw [if_pos htr] at h
        exact pm_preserves_untouched _ _ _ _ _ h i hlev
      · rw [if_neg htr] at h
        simp only [Option.some.injEq, Prod.mk.injEq] at h
        obtain ⟨h1, -, -⟩ := h
        rw [← h1]
        exact ⟨rfl, hlev, rfl⟩
  · rw [if_neg hside] at h
    by_cases hmp : b.get_best_bid = 0
    · rw [if_pos hmp] at h
      simp only [Option.some.injEq, Prod.mk.injEq] at h
      obtain ⟨h1, -, -⟩ := h
      rw [← h1]
      exact ⟨rfl, hlev, rfl⟩
    · rw [if_neg hmp] at h
      have hside2 : t.side = OrderSide.sell := by
        cases hs : t.side
        · exact absurd hs hside
        · rfl
      simp only [hside2, reduceCtorEq, if_false] at h
      by_cases htr : b.get_best_bid ≤ t.stop_price
      · rw [if_pos htr] at h
        exact pm_preserves_untouched _ _ _ _ _ h i hlev
      · rw [if_neg htr] at h
        simp only [Option.some.injEq, Prod.mk.injEq] at h
        obtain ⟨h1, -, -⟩ := h
        rw [← h1]
        exact ⟨rfl, hlev, rfl⟩

theorem limit_match_map_untouched (b : OrderBook) (t : Order)
    (res : OrderBook × Order × List BEvent) (i : String) (hne : t.id ≠ i)
    (h : ((b.match_orders t).map fun r =>
      if r.2.1.filled_quantity < r.2.1.quantity
      then (r.1.add_order_to_level r.2.1, r.2.1, r.2.2.2)
      else (r.1, r.2.1, r.2.2.2)) = some res)
    (hlev : idInLevels b i = false) :
    lookupA res.1.orders_by_id_ i = lookupA b.orders_by_id_ i ∧
    idInLevels res.1 i = false ∧
    res.1.orders_by_id_.map Prod.fst = b.orders_by_id_.map Prod.fst := by
  cases hm : b.match_orders t with
  | none => rw [hm] at h; exact absurd h (by simp)
  | some rm =>
    obtain ⟨bm, om, trm, evm⟩ := rm
    rw [hm] at h
    simp only [Option.map_some', Option.some.injEq] at h
    obtain ⟨hpres, hplev, hpkeys⟩ :=
      match_preserves_untouched _ _ _ _ _ _ hm i hlev
    obtain ⟨⟨f, hf⟩, -, -, -, -, -, -⟩ := match_orders_spec _ _ _ _ _ _ hm
    have homid : om.id ≠ i := by
      rw [hf]
      exact hne
    by_cases hfl : om.filled_quantity < om.quantity
    · rw [if_pos hfl] at h
      rw [← h]
      obtain ⟨halev, hastore⟩ := atl_preserves_fresh bm om i homid hplev
      refine ⟨?_, halev, ?_⟩
      · show lookupA (bm.add_order_to_level om).orders_by_id_ i
            = lookupA b.orders_by_id_ i
        rw [hastore]
        exact hpres
      · show (bm.add_order_to_level om).orders_by_id_.map Prod.fst
            = b.orders_by_id_.map Prod.fst
        rw [hastore]
        exact hpkeys
    · rw [if_neg hfl] at h
      rw [← h]
      exact ⟨hpres, hplev, hpkeys⟩

theorem psl_preserves_untouched (b : OrderBook) (t : Order)
    (b' : OrderBook) (o' : Order) (ev : List BEvent) (i : String)
    (hne : t.id ≠ i)
    (h : b.process_stop_limit_order t = some (b', o', ev))
    (hlev : idInLevels b i = false) :
    lookupA b'.orders_by_id_ i = lookupA b.orders_by_id_ i ∧
    idInLevels b' i = false ∧
    b'.orders_by_id_.map Prod.fst = b.orders_by_id_.map Prod.fst := by
  rw [OrderBook.process_stop_limit_order] at h
  dsimp only at h
  by_cases hside : t.side = OrderSide.buy
  · rw [if_pos hside] at h
    by_cases hmp : b.get_best_ask = 0
    · rw [if_pos hmp] at h
      simp only [Option.some.injEq, Prod.mk.injEq] at h
      obtain ⟨h1, -, -⟩ := h
      rw [← h1]
      exact ⟨rfl, hlev, rfl⟩
    · rw [if_neg hmp] at h
      simp only [hside, if_true] at h
      by_cases htr : t.stop_price ≤ b.get_best_ask
      · rw [if_pos htr] at h
        exact limit_match_map_untouched b
          { t with side := OrderSide.buy, type := OrderType.limit }
          (b', o', ev) i hne h hlev
      · rw [if_neg htr] at h
        simp only [Option.some.injEq, Prod.mk.injEq] at h
        obtain ⟨h1, -, -⟩ := h
        rw [← h1]
        exact ⟨rfl, hlev, rfl⟩
  · rw [if_neg hside] at h
    by_cases hmp : b.get_best_bid = 0
    · rw [if_pos hmp] at h
      simp only [Option.some.injEq, Prod.mk.injEq] at h
      obtain ⟨h1, -, -⟩ := h
      rw [← h1]
      exact ⟨rfl, hlev, rfl⟩
    · rw [if_neg hmp] at h
      have hside2 : t.side = OrderSide.sell := by
        cases hs : t.side
        · exact absurd hs hside
        · rfl
      simp only [hside2, reduceCtorEq, if_false] at h
      by_cases htr : b.get_best_bid ≤ t.stop_price
      · rw [if_pos htr] at h
        exact limit_match_map_untouched b
          { t with side := OrderSide.sell, type := OrderType.limit }
          (b', o', ev) i hne h hlev
      · rw [if_neg htr] at h
        simp only [Option.some.injEq, Prod.mk.injEq] at h
        obtain ⟨h1, -, -⟩ := h
        rw [← h1]
        exact ⟨rfl, hlev, rfl⟩

/-- `add_order` of a different id leaves an armed stop armed. -/
theorem add_preserves_armed (b : OrderBook) (o' : Order)
    (r : OrderBook × Order × List Trade × List BEvent)
    (i : String) (o : Order) (hne : o'.id ≠ i)
    (h : b.add_order o' = some r) (harm : ArmedStop b i o) :
    ArmedStop r.1 i o := by
  obtain ⟨hlk0, hty, hst, hfq, hlev, hnd⟩ := harm
  have hlk : lookupA b.orders_by_id_ i = some o := hlk0
  rw [OrderBook.add_order] at h
  by_cases hval : o'.quantity = 0 ∨ MAX_ORDER_QUANTITY < o'.quantity ∨
      (o'.type = OrderType.limit ∧
        (o'.price = 0 ∨ MAX_ORDER_PRICE < o'.price))
  · rw [if_pos hval] at h
    simp only [Option.some.injEq] at h
    rw [← h]
    exact ⟨hlk0, hty, hst, hfq, hlev, hnd⟩
  · rw [if_neg hval] at h
    have hlkI : lookupA (insertA b.orders_by_id_ o'.id o') i = some o := by
      rw [lookupA_insertA_ne _ _ _ _ hne]
      exact hlk
    have hndI : ((insertA b.orders_by_id_ o'.id o').map Prod.fst).Nodup :=
      insertA_map_fst_nodup _ _ _ hnd
    have hlevI : idInLevels { b with
        orders_by_id_ := insertA b.orders_by_id_ o'.id o',
        total_orders_ := add64 b.total_orders_ 1 } i = false := hlev
    cases hty' : o'.type with
    | market =>
      simp only [hty'] at h
      cases hpm : OrderBook.process_market_order
          { b with orders_by_id_ := insertA b.orders_by_id_ o'.id o',
                   total_orders_ := add64 b.total_orders_ 1 } o' with
      | none => rw [hpm] at h; exact absurd h (by simp)
      | some rp =>
        obtain ⟨bp, op, evp⟩ := rp
        rw [hpm] at h
        simp only [Option.map_some', Option.some.injEq] at h
        rw [← h]
        obtain ⟨hpres, hplev, hpkeys⟩ :=
          pm_preserves_untouched _ _ _ _ _ hpm i hlevI
        exact store_insert_armed bp o'.id _ _ i o hne
          (by rw [hpres]; exact hlkI) hplev
          (by rw [hpkeys]; exact hndI) hty hst hfq
    | limit =>
      simp only [hty'] at h
      cases hm : OrderBook.match_orders
          { b with orders_by_id_ := insertA b.orders_by_id_ o'.id o',
                   total_orders_ := add64 b.total_orders_ 1 } o' with
      | none => rw [hm] at h; exact absurd h (by simp)
      | some rm =>
        obtain ⟨bm, om, trm, evm⟩ := rm
        rw [hm] at h
        simp only [Option.map_some', Option.some.injEq] at h
        obtain ⟨hpres, hplev, hpkeys⟩ :=
          match_preserves_untouched _ _ _ _ _ _ hm i hlevI
        obtain ⟨⟨f, hf⟩, -, -, -, -, -, -⟩ := match_orders_spec _ _ _ _ _ _ hm
        have homid : om.id ≠ i := by
          rw [hf]
          exact hne
        by_cases hfl : om.filled_quantity < om.quantity
        · rw [if_pos hfl] at h
          rw [← h]
          obtain ⟨halev, hastore⟩ := atl_preserves_fresh bm om i homid hplev
          exact store_insert_armed (bm.add_order_to_level om) o'.id _ _ i o
            hne (by rw [hastore, hpres]; exact hlkI) halev
            (by rw [hastore, hpkeys]; exact hndI) hty hst hfq
        · rw [if_neg hfl] at h
          rw [← h]
          exact store_insert_armed bm o'.id _ _ i o hne
            (by rw [hpres]; exact hlkI) hplev
            (by rw [hpkeys]; exact hndI) hty hst hfq
    | stop =>
      simp only [hty'] at h
      cases hps : OrderBook.process_stop_order
          { b with orders_by_id_ := insertA b.orders_by_id_ o'.id o',
                   total_orders_ := add64 b.total_orders_ 1 } o' with
      | none => rw [hps] at h; exact absurd h (by simp)
      | some rp =>
        obtain ⟨bp, op, evp⟩ := rp
        rw [hps] at h
        simp only [Option.map_some', Option.some.injEq] at h
        rw [← h]
        obtain ⟨hpres, hplev, hpkeys⟩ :=
          ps_preserves_untouched _ _ _ _ _ hps i hlevI
        exact store_insert_armed bp o'.id _ _ i o hne
          (by rw [hpres]; exact hlkI) hplev
          (by rw [hpkeys]; exact hndI) hty hst hfq
    | stopLimit =>
      simp only [hty'] at h
      cases hps : OrderBook.process_stop_limit_order
          { b with orders_by_id_ := insertA b.orders_by_id_ o'.id o',
                   total_orders_ := add64 b.total_orders_ 1 } o' with
      | none => rw [hps] at h; exact absurd h (by simp)
      | some rp =>
        obtain ⟨bp, op, evp⟩ := rp
        rw [hps] at h
        simp only [Option.map_some', Option.some.injEq] at h
        rw [← h]
        obtain ⟨hpres, hplev, hpkeys⟩ :=
          psl_preserves_untouched _ _ _ _ _ i hne hps hlevI
        exact store_insert_armed bp o'.id _ _ i o hne
          (by rw [hpres]; exact hlkI) hplev
          (by rw [hpkeys]; exact hndI) hty hst hfq

/-- `cancel_order` of a different id leaves an armed stop armed. -/
theorem cancel_preserves_armed (b : OrderBook) (j i : String) (o : Order)
    (hne : j ≠ i) (harm : ArmedStop b i o) :
    ArmedStop (b.cancel_order j).1 i o := by
  obtain ⟨hlk0, hty, hst, hfq, hlev, hnd⟩ := harm
  have hlk : lookupA b.orders_by_id_ i = some o := hlk0
  cases hlkj : lookupA b.orders_by_id_ j with
  | none =>
    have hres : b.cancel_order j = (b, false, []) := by
      simp only [OrderBook.cancel_order, hlkj]
    rw [hres]
    exact ⟨hlk0, hty, hst, hfq, hlev, hnd⟩
  | some oj =>
    by_cases hterm : oj.status = OrderStatus.filled ∨
        oj.status = OrderStatus.cancelled
    · have hres : b.cancel_order j = (b, false, []) := by
        simp only [OrderBook.cancel_order, hlkj, if_pos hterm]
      rw [hres]
      exact ⟨hlk0, hty, hst, hfq, hlev, hnd⟩
    · rw [cancel_order_true_shape b j oj hlkj hterm]
      have hstore : (if oj.type = OrderType.limit
          then b.remove_order_from_level
            { oj with status := OrderStatus.cancelled }
          else b).orders_by_id_ = b.orders_by_id_ := by
        split
        · rw [OrderBook.remove_order_from_level]
          split <;> rfl
        · rfl
      have hlevX : idInLevels (if oj.type = OrderType.limit
          then b.remove_order_from_level
            { oj with status := OrderStatus.cancelled }
          else b) i = false := by
        split
        · exact remove_level_keeps_fresh b _ i hlev
        · exact hlev
      refine ⟨?_, hty, hst, hfq, hlevX, ?_⟩
      · show lookupA (eraseA (if oj.type = OrderType.limit
            then b.remove_order_from_level
              { oj with status := OrderStatus.cancelled }
            else b).orders_by_id_ j) i = some o
        rw [hstore, lookupA_eraseA_ne _ _ _ hne]
        exact hlk
      · show ((eraseA (if oj.type = OrderType.limit
            then b.remove_order_from_level
              { oj with status := OrderStatus.cancelled }
            else b).orders_by_id_ j).map Prod.fst).Nodup
        rw [hstore]
        exact List.Nodup.sublist ((eraseA_sublist _ _).map Prod.fst) hnd

/-- `modify_order` of a different id leaves an armed stop armed (needs the
store's key/id coherence for the cancel-and-readd path). -/
theorem modify_preserves_armed (b : OrderBook) (j : String) (np nq : Nat)
    (r : OrderBook × Bool × List BEvent) (i : String) (o : Order)
    (hne : j ≠ i) (h : b.modify_order j np nq = some r)
    (harm : ArmedStop b i o)
    (hco : ∀ e ∈ b.orders_by_id_, e.2.id = e.1) :
    ArmedStop r.1 i o := by
  obtain ⟨hlk0, hty, hst, hfq, hlev, hnd⟩ := harm
  have hlk : lookupA b.orders_by_id_ i = some o := hlk0
  rw [OrderBook.modify_order] at h
  cases hlkj : lookupA b.orders_by_id_ j with
  | none =>
    rw [hlkj] at h
    dsimp only at h
    simp only [Option.some.injEq] at h
    rw [← h]
    exact ⟨hlk0, hty, hst, hfq, hlev, hnd⟩
  | some oj =>
    have hojid : oj.id = j := hco (j, oj) (lookupA_mem hlkj)
    rw [hlkj] at h
    dsimp only at h
    by_cases h1 : oj.status = OrderStatus.filled ∨
        oj.status = OrderStatus.cancelled
    · rw [if_pos h1] at h
      simp only [Option.some.injEq] at h
      rw [← h]
      exact ⟨hlk0, hty, hst, hfq, hlev, hnd⟩
    · rw [if_neg h1] at h
      by_cases h2 : oj.quantity ≤ oj.filled_quantity
      · rw [if_pos h2] at h
        simp only [Option.some.injEq] at h
        rw [← h]
        exact ⟨hlk0, hty, hst, hfq, hlev, hnd⟩
      · rw [if_neg h2] at h
        by_cases h3 : nq ≤ oj.quantity ∧ np = oj.price
        · rw [if_pos h3] at h
          simp only [Option.some.injEq] at h
          rw [← h]
          refine ⟨?_, hty, hst, hfq, hlev, ?_⟩
          · show lookupA (insertA b.orders_by_id_ j
              { oj with quantity := nq }) i = some o
            rw [lookupA_insertA_ne _ _ _ _ hne]
            exact hlk
          · show ((insertA b.orders_by_id_ j
              { oj with quantity := nq }).map Prod.fst).Nodup
            exact insertA_map_fst_nodup _ _ _ hnd
        · rw [if_neg h3] at h
          cases hadd : OrderBook.add_order (b.cancel_order j).1
              { id := oj.id, symbol := oj.symbol, side := oj.side,
                type := oj.type, price := np, stop_price := 0,
                quantity := nq, user_id := oj.user_id } with
          | none => rw [hadd] at h; exact absurd h (by simp)
          | some r₂ =>
            obtain ⟨b₂, o₂, tr₂, ev₂⟩ := r₂
            rw [hadd] at h
            simp only [Option.some.injEq] at h
            rw [← h]
            have hne2 :
                ({ id := oj.id, symbol := oj.symbol, side := oj.side,
                   type := oj.type, price := np, stop_price := 0,
                   quantity := nq, user_id := oj.user_id } : Order).id
                  ≠ i := by
              show oj.id ≠ i
              rw [hojid]
              exact hne
            exact add_preserves_armed _ _ _ i o hne2 hadd
              (cancel_preserves_armed b j i o hne
                ⟨hlk0, hty, hst, hfq, hlev, hnd⟩)

theorem foldl_cancel_armed (i : String) (o : Order) :
    ∀ ids : List String, (∀ j ∈ ids, j ≠ i) →
    ∀ acc : OrderBook × List BEvent, ArmedStop acc.1 i o →
    ArmedStop (ids.foldl (fun acc k =>
      ((acc.1.cancel_order k).1, acc.2 ++ (acc.1.cancel_order k).2.2))
      acc).1 i o := by
  intro ids
  induction ids with
  | nil => exact fun _ acc h => h
  | cons k rest ih =>
    intro hall acc h
    exact ih (fun j hj => hall j (List.mem_cons_of_mem _ hj)) _
      (cancel_preserves_armed acc.1 k i o
        (hall k (List.mem_cons_self _ _)) h)

/-- The expiry sweep leaves an armed stop armed when the stop itself is
not expired. -/
theorem expired_preserves_armed (b : OrderBook) (now : Int) (i : String)
    (o : Order) (harm : ArmedStop b i o)
    (hav : ¬(0 < o.expiry ∧ o.expiry ≤ now)) :
    ArmedStop (b.cancel_expired_orders now).1 i o := by
  obtain ⟨hlk0, hty, hst, hfq, hlev, hnd⟩ := harm
  have hlk : lookupA b.orders_by_id_ i = some o := hlk0
  have hall : ∀ j ∈ (b.orders_by_id_.filter fun e =>
      decide (0 < e.2.expiry) && decide (e.2.expiry ≤ now) &&
        decide (e.2.status = OrderStatus.new)).map Prod.fst, j ≠ i := by
    intro jx hjx hji
    rcases List.mem_map.1 hjx with ⟨e, he, hej⟩
    rw [List.mem_filter] at he
    obtain ⟨hes, hcond⟩ := he
    have hlkx : lookupA b.orders_by_id_ e.1 = some e.2 :=
      lookupA_of_mem_nodup hes hnd
    rw [hej, hji] at hlkx
    rw [hlk] at hlkx
    have heo : o = e.2 := Option.some.inj hlkx
    rw [← heo] at hcond
    simp only [Bool.and_eq_true, decide_eq_true_eq] at hcond
    exact hav ⟨hcond.1.1, hcond.1.2⟩
  exact foldl_cancel_armed i o
    ((b.orders_by_id_.filter fun e =>
      decide (0 < e.2.expiry) && decide (e.2.expiry ≤ now) &&
        decide (e.2.status = OrderStatus.new)).map Prod.fst)
    hall (b, []) ⟨hlk0, hty, hst, hfq, hlev, hnd⟩

/-- **C10** (confirmed).  An armed Stop or StopLimit order — submitted but
untriggered, stored with status `New`, zero fill, resting in no price
level — is inert: any
completed operation that does not target its id, sweep it as expired, or
wipe the book leaves it stored unchanged (same `get_order` result, still
status `New` with zero fill, still resting in no level).  No code path
re-examines stored stop prices. -/
theorem C10_armed_stop_inert (b : OrderBook) (i : String) (o : Order)
    (op : Op) (b' : OrderBook)
    (harm : ArmedStop b i o)
    (hco : ∀ e ∈ b.orders_by_id_, e.2.id = e.1)
    (hav : OpAvoids op i o.expiry)
    (h : b.step op = some b') :
    ArmedStop b' i o := by
  cases op with
  | add o' =>
    simp only [OrderBook.step] at h
    cases hadd : b.add_order o' with
    | none => rw [hadd] at h; exact absurd h (by simp)
    | some r =>
      rw [hadd] at h
      simp only [Option.map_some', Option.some.injEq] at h
      rw [← h]
      exact add_preserves_armed b o' r i o hav hadd harm
  | cancel j =>
    simp only [OrderBook.step, Option.some.injEq] at h
    rw [← h]
    exact cancel_preserves_armed b j i o hav harm
  | modify j p q =>
    simp only [OrderBook.step] at h
    cases hm : b.modify_order j p q with
    | none => rw [hm] at h; exact absurd h (by simp)
    | some r =>
      rw [hm] at h
      simp only [Option.map_some', Option.some.injEq] at h
      rw [← h]
      exact modify_preserves_armed b j p q r i o hav hm harm hco
  | cancelExpired now =>
    simp only [OrderBook.step, Option.some.injEq] at h
    rw [← h]
    exact expired_preserves_armed b now i o harm hav
  | clear => exact False.elim hav

theorem C10_armed_stop_inert_witness :
    ArmedStop armedNext "ST" oStopArmed ∧
    ArmedStop armedNextSL "SL" oStopLimitArmed :=
  ⟨C10_armed_stop_inert bookArmed "ST" oStopArmed (Op.add oBuyGTC1)
      armedNext (by unfold ArmedStop; decide) (by decide)
      (show oBuyGTC1.id ≠ "ST" by decide) (by decide),
    C10_armed_stop_inert bookArmedSL "SL" oStopLimitArmed (Op.add oBuyGTC1)
      armedNextSL (by unfold ArmedStop; decide) (by decide)
      (show oBuyGTC1.id ≠ "SL" by decide) (by decide)⟩

end VeloxBook
